import Mathlib

/-!
Shallow embedding of the pathfinder visibility-graph core
(src/src/graph/mod.rs) over the real numbers, together with proofs about
the tangent-geometry engine, the path validator, the origin resolver and
the graph builder.  The f32 arithmetic of the source is idealised as real
arithmetic; helper functions of the repository that live outside
src/src/graph/mod.rs (util.rs, point.rs, node.rs, vertex.rs, obj) are
modelled from the specification and marked as such in their doc comments.
-/

noncomputable section

open Real

/-- Classical decidability for the branch conditions of the embedded code
(the source branches on f32 comparisons, idealised as real comparisons). -/
instance (priority := low) classicalPropDecidable (p : Prop) : Decidable p :=
  Classical.propDecidable p

/-- Cartesian point relative to the resolved origin (struct Point, mod.rs 18-23). -/
structure Point where
  x : ℝ
  y : ℝ
  z : ℝ

/-- Modelled from the spec: geodetic location in radians (obj::Location,
outside src). Carries latitude, longitude and altitude. -/
structure Location where
  lat : ℝ
  lon : ℝ
  alt : ℝ

/-- Modelled from the spec: an obstacle is a center location, a radius and
a height (obj::Obstacle, outside src). -/
structure Obstacle where
  location : Location
  radius : ℝ
  height : ℝ

/-- Directed edge payload (struct Connection, mod.rs 42-48).  Following the
design notes of the spec, the Rc-pointer to the neighbor vertex is modelled
as the neighbor's integer index. -/
structure Connection where
  neighbor : ℤ
  distance : ℝ
  threshold : ℝ

/-- Vertex on a node ring (struct Vertex, mod.rs 26-38).  Following the
design notes of the spec, prev and next ring pointers are replaced by the
position of the vertex inside its node's ring list, and the search-owned
parent pointer is an optional index. -/
structure Vertex where
  index : ℤ
  radius : ℝ
  location : Point
  angle : ℝ
  g_cost : ℝ
  f_cost : ℝ
  parent : Option ℤ
  connection : Option Connection
  sentinel : Bool

/-- Circular safety-buffer node (struct Node, mod.rs 50-57).  The closed
doubly linked ring reachable from left_ring and right_ring is modelled as
the list of its vertices. -/
structure Node where
  origin : Point
  radius : ℝ
  height : ℝ
  ring : List Vertex

/-- Result of validating a candidate segment (enum PathValidity, mod.rs 59-63). -/
inductive PathValidity where
  | Valid : PathValidity
  | Invalid : PathValidity
  | Flyover : ℝ → PathValidity

/-- Modelled from the spec: a virtualized boundary-concavity node produced
by virtualize_flyzone (outside src); the exact geometric predicate is an
external helper, so its output is recorded as origin, radius, height and
the ring-interruption angles it requests. -/
structure VirtualSpec where
  origin : Point
  radius : ℝ
  height : ℝ
  angles : List ℝ

/-- The Pathfinder state (fields used by the core of mod.rs).  The
geodetic-to-planar projection and the two external helper functions of
node population (insert_flyzone_sentinel and virtualize_flyzone, outside
src) are modelled from the spec as function-valued fields: the projection
is an external collaborator, and the two helpers have the contract
"given a node and the boundary set, return zero or more angle positions"
resp. "virtualize each boundary polygon into zero or more circular nodes". -/
structure Pathfinder where
  flyzones : List (List Location)
  obstacles : List Obstacle
  buffer : ℝ
  origin : Location
  num_vertices : ℤ
  nodes : List Node
  proj : Location → Location → ℝ × ℝ
  sentinel_oracle : List (List Location) → Node → List ℝ
  virtual_specs : List Location → List VirtualSpec

/-- Modelled from the spec: Point::from_location (point.rs, outside src)
projects a geodetic location to local-planar meters through the external
projection; the source comments record that longitude maps to x and
latitude to y. -/
def Point.from_location (proj : Location → Location → ℝ × ℝ) (origin l : Location) : Point :=
  ⟨(proj origin l).1, (proj origin l).2, l.alt⟩

/-- Modelled from the spec: Point::distance (point.rs, outside src) is the
horizontal (2D) Euclidean distance; valid_path at mod.rs 330 uses it as the
horizontal leg against the altitude difference. -/
def Point.distance (a b : Point) : ℝ :=
  Real.sqrt ((a.x - b.x) ^ 2 + (a.y - b.y) ^ 2)

/-- Modelled from the spec: Node::to_point (node.rs, outside src) converts
an angle on the node boundary to a Cartesian endpoint via the node's own
origin and radius, with z set to the node's height. -/
def Node.to_point (n : Node) (angle : ℝ) : Point :=
  ⟨n.origin.x + n.radius * Real.cos angle, n.origin.y + n.radius * Real.sin angle, n.height⟩

/-- Modelled from the spec: Node::from_obstacle (node.rs, outside src):
radius is the obstacle radius plus the configured safety buffer, height is
the obstacle height, the center is the projected obstacle location. -/
def Node.from_obstacle (proj : Location → Location → ℝ × ℝ) (origin : Location)
    (o : Obstacle) (buffer : ℝ) : Node :=
  ⟨Point.from_location proj origin o.location, o.radius + buffer, o.height, []⟩

/-- Two-argument arctangent, the real-number idealisation of f32::atan2
used at mod.rs 222 and 330. -/
def atan2 (y x : ℝ) : ℝ :=
  if 0 < x then Real.arctan (y / x)
  else if x < 0 ∧ 0 ≤ y then Real.arctan (y / x) + π
  else if x < 0 ∧ y < 0 then Real.arctan (y / x) - π
  else if x = 0 ∧ 0 < y then π / 2
  else if x = 0 ∧ y < 0 then -(π / 2)
  else 0

/-- Modelled from the spec: normalize_angle (util.rs, outside src).  With
the flag set it normalizes into the range zero (inclusive) to 2 pi
(exclusive); with the flag clear it normalizes into the mirrored negative
range, so that the two tangent sides stay distinguishable. -/
def normalize_angle (positive : Bool) (x : ℝ) : ℝ :=
  if positive then x - 2 * π * ⌊x / (2 * π)⌋
  else -((-x) - 2 * π * ⌊(-x) / (2 * π)⌋)

/-- Modelled from the spec: reverse_polarity (util.rs, outside src) maps an
angle of the positive normalization range to the mirrored negative range
and back (same direction modulo 2 pi, opposite sign convention), giving the
angles of the reciprocal edge of build_graph at mod.rs 119. -/
def reverse_polarity (a : ℝ) : ℝ :=
  if a < 0 then a + 2 * π else a - 2 * π

/-- Orientation (signed double area) of the triple p, q, r in the plane. -/
def orient (p q r : Point) : ℝ :=
  (q.x - p.x) * (r.y - p.y) - (q.y - p.y) * (r.x - p.x)

/-- Modelled from the spec: intersect (util.rs, outside src) is the 2D
segment-segment intersection test used for the boundary containment check;
the segments a-b and c-d properly cross when each straddles the other's
supporting line. -/
def intersect (a b c d : Point) : Prop :=
  orient a b c * orient a b d < 0 ∧ orient c d a * orient c d b < 0

/-- Squared distance from the point c to the segment a-b (clamped
perpendicular foot). -/
def segDistSq (a b c : Point) : ℝ :=
  let dx := b.x - a.x
  let dy := b.y - a.y
  let l2 := dx ^ 2 + dy ^ 2
  let t := (c.x - a.x) * dx + (c.y - a.y) * dy
  if t ≤ 0 then (c.x - a.x) ^ 2 + (c.y - a.y) ^ 2
  else if l2 ≤ t then (c.x - b.x) ^ 2 + (c.y - b.y) ^ 2
  else ((c.x - a.x) ^ 2 + (c.y - a.y) ^ 2) - t ^ 2 / l2

/-- Modelled from the spec: perpendicular_intersect (util.rs, outside src)
is the perpendicular-distance-based segment-circle test of the path
validator; this predicate holds exactly when the test returns two
intersection points (the pattern matched at mod.rs 366), i.e. when the
segment comes strictly closer to the obstacle center than its radius. -/
def perpendicular_intersect (proj : Location → Location → ℝ × ℝ) (origin : Location)
    (a b : Point) (o : Obstacle) : Prop :=
  segDistSq a b (Point.from_location proj origin o.location) < o.radius ^ 2

/-- Boundary scan of one flyzone polygon (valid_path, mod.rs 344-358):
temp walks the remaining points checking each consecutive edge against the
candidate segment, and the final check closes the polygon back to first. -/
def zoneBlockedFrom (a b first temp : Point) : List Point → Prop
  | [] => intersect a b temp first
  | p :: rest => intersect a b temp p ∨ zoneBlockedFrom a b first p rest

/-- One flyzone blocks the segment (valid_path, mod.rs 340-359): the first
point is removed, then every linked edge is tested, the polygon being
implicitly closed.  An empty polygon (on which the source would panic when
removing the first point) blocks nothing. -/
def zoneBlocked (proj : Location → Location → ℝ × ℝ) (origin : Location)
    (a b : Point) (zone : List Location) : Prop :=
  match zone.map (Point.from_location proj origin) with
  | [] => False
  | f :: rest => zoneBlockedFrom a b f f rest

/-- Some flyzone polygon blocks the segment (the outer loop of valid_path). -/
def boundaryBlocked (pf : Pathfinder) (a b : Point) : Prop :=
  ∃ zone ∈ pf.flyzones, zoneBlocked pf.proj pf.origin a b zone

/-- Obstacle scan of valid_path (mod.rs 362-376): max_height starts at 0
and is raised to the height of every obstacle whose footprint the segment
intersects with two intersection points. -/
def obstacleMaxHeight (pf : Pathfinder) (a b : Point) : ℝ :=
  pf.obstacles.foldl
    (fun m o =>
      if perpendicular_intersect pf.proj pf.origin a b o ∧ m < o.height then o.height else m)
    0

/-- valid_path (mod.rs 329-379): Invalid when some flyzone edge intersects
the segment, otherwise Flyover with the maximal intersected obstacle
height (the hard-invalidate return for obstacles is disabled in the
source, and the ascent-angle check is commented out). -/
def valid_path (pf : Pathfinder) (a b : Point) : PathValidity :=
  if boundaryBlocked pf a b then PathValidity.Invalid
  else PathValidity.Flyover (obstacleMaxHeight pf a b)

/-- Center distance of two nodes (mod.rs 218). -/
def nodeDist (a b : Node) : ℝ := a.origin.distance b.origin

/-- theta of find_path (mod.rs 222): direction from node a toward node b. -/
def fpTheta (a b : Node) : ℝ :=
  atan2 (b.origin.y - a.origin.y) (b.origin.x - a.origin.x)

/-- The pair (theta1, theta2) of find_path (mod.rs 223-227). -/
def fpThetaPair (a b : Node) : ℝ × ℝ :=
  if fpTheta a b > 0 then (fpTheta a b, fpTheta a b + π)
  else (fpTheta a b + 2 * π, fpTheta a b + π)

/-- theta1 of find_path. -/
def fpTheta1 (a b : Node) : ℝ := (fpThetaPair a b).1

/-- theta2 of find_path. -/
def fpTheta2 (a b : Node) : ℝ := (fpThetaPair a b).2

/-- gamma1 of find_path (mod.rs 243): half-angle to the inner tangents. -/
def fpGamma1 (a b : Node) : ℝ :=
  Real.arccos (|a.radius + b.radius| / nodeDist a b)

/-- gamma2 of find_path (mod.rs 244-249): half-angle to the outer
tangents, complemented when the second radius is larger. -/
def fpGamma2 (a b : Node) : ℝ :=
  if b.radius > a.radius then π - Real.arccos (|a.radius - b.radius| / nodeDist a b)
  else Real.arccos (|a.radius - b.radius| / nodeDist a b)

/-- The two outer-tangent candidate angle pairs (mod.rs 258-267). -/
def outerCandidates (a b : Node) : List (ℝ × ℝ) :=
  [(normalize_angle true (fpTheta1 a b - fpGamma2 a b),
    normalize_angle true (fpTheta2 a b + π - fpGamma2 a b)),
   (normalize_angle false (fpTheta1 a b - 2 * π + fpGamma2 a b),
    normalize_angle false (fpTheta2 a b - 3 * π + fpGamma2 a b))]

/-- The two inner-tangent candidate angle pairs (mod.rs 271-282). -/
def innerCandidates (a b : Node) : List (ℝ × ℝ) :=
  [(normalize_angle true (fpTheta1 a b - fpGamma1 a b),
    normalize_angle false (fpTheta2 a b - 2 * π - fpGamma1 a b)),
   (normalize_angle false (fpTheta1 a b - 2 * π + fpGamma1 a b),
    normalize_angle true (fpTheta2 a b + fpGamma1 a b))]

/-- The inner-tangent precondition of find_path (mod.rs 270): both radii
nonzero and the circles strictly separated. -/
def innerOk (a b : Node) : Prop :=
  a.radius ≠ 0 ∧ b.radius ≠ 0 ∧ nodeDist a b > a.radius + b.radius

/-- All candidate angle pairs of find_path (mod.rs 258-282): the outer
pair always, the inner pair only under the precondition. -/
def findPathCandidates (a b : Node) : List (ℝ × ℝ) :=
  outerCandidates a b ++ (if innerOk a b then innerCandidates a b else [])

/-- theta_s of the sentinel branch (mod.rs 285): law of cosines on circle a. -/
def sentinelThetaS (a b : Node) : ℝ :=
  Real.arccos ((a.radius ^ 2 + nodeDist a b ^ 2 - b.radius ^ 2) / (2 * a.radius * nodeDist a b))

/-- phi_s of the sentinel branch (mod.rs 286): law of cosines on circle b. -/
def sentinelPhiS (a b : Node) : ℝ :=
  Real.arccos ((b.radius ^ 2 + nodeDist a b ^ 2 - a.radius ^ 2) / (2 * b.radius * nodeDist a b))

/-- The optional sentinel list of find_path (mod.rs 269-299): None when
the inner-tangent precondition holds, otherwise the four quadrant
reflections of theta_s and phi_s. -/
def findPathSentinels (a b : Node) : Option (List (ℝ × ℝ)) :=
  if innerOk a b then none
  else
    some [(sentinelThetaS a b, π - sentinelPhiS a b),
          (-sentinelThetaS a b, π + sentinelPhiS a b),
          (-(2 * π) + sentinelThetaS a b, -π + sentinelPhiS a b),
          (2 * π - sentinelThetaS a b, -π - sentinelPhiS a b)]

/-- find_path (mod.rs 209-326): every candidate pair is converted to
Cartesian endpoints and submitted to valid_path; Valid candidates are kept
with threshold 0, Flyover candidates with their height, Invalid ones are
dropped.  Returns the accepted tuples and the optional sentinel list. -/
def find_path (pf : Pathfinder) (a b : Node) :
    List (ℝ × ℝ × ℝ × ℝ) × Option (List (ℝ × ℝ)) :=
  ((findPathCandidates a b).filterMap
      (fun c =>
        let p1 := a.to_point c.1
        let p2 := b.to_point c.2
        match valid_path pf p1 p2 with
        | PathValidity.Valid => some (c.1, c.2, p1.distance p2, 0)
        | PathValidity.Flyover h => some (c.1, c.2, p1.distance p2, h)
        | PathValidity.Invalid => none),
   findPathSentinels a b)

/-- IEEE-aware model of f32 division for the sentinel angles: a zero
denominator produces a non-finite value (infinity or NaN), recorded as
none. -/
def f32DivO (x y : ℝ) : Option ℝ :=
  if y = 0 then none else some (x / y)

/-- IEEE-aware model of f32::acos: NaN on inputs outside the closed
interval from -1 to 1 (which includes the infinities and NaN produced by a
zero-denominator division), recorded as none. -/
def f32AcosO : Option ℝ → Option ℝ
  | none => none
  | some v => if v < -1 ∨ 1 < v then none else some (Real.arccos v)

/-- IEEE-aware model of theta_s (mod.rs 285): the law-of-cosines division
by 2 r1 dist is unguarded, so a zero radius makes the angle NaN. -/
def sentinelThetaIEEE (a b : Node) : Option ℝ :=
  f32AcosO (f32DivO (a.radius ^ 2 + nodeDist a b ^ 2 - b.radius ^ 2) (2 * a.radius * nodeDist a b))

/-- IEEE-aware model of phi_s (mod.rs 286). -/
def sentinelPhiIEEE (a b : Node) : Option ℝ :=
  f32AcosO (f32DivO (b.radius ^ 2 + nodeDist a b ^ 2 - a.radius ^ 2) (2 * b.radius * nodeDist a b))

/-- IEEE-aware model of the four emitted sentinel pairs (mod.rs 289-298):
NaN propagates through the negations and additions of the quadrant
reflections. -/
def sentinelPairsIEEE (a b : Node) : List (Option ℝ × Option ℝ) :=
  [((sentinelThetaIEEE a b).map id, (sentinelPhiIEEE a b).map (fun v => π - v)),
   ((sentinelThetaIEEE a b).map Neg.neg, (sentinelPhiIEEE a b).map (fun v => π + v)),
   ((sentinelThetaIEEE a b).map (fun v => -(2 * π) + v),
    (sentinelPhiIEEE a b).map (fun v => -π + v)),
   ((sentinelThetaIEEE a b).map (fun v => 2 * π - v),
    (sentinelPhiIEEE a b).map (fun v => -π - v))]

/-- Point scan of find_origin (mod.rs 180-190): running minimum latitude,
minimum longitude and maximum longitude. -/
def scanPoint : ℝ × ℝ × ℝ → Location → ℝ × ℝ × ℝ :=
  fun s p =>
    (if p.lat < s.1 then p.lat else s.1,
     if p.lon < s.2.1 then p.lon else s.2.1,
     if p.lon > s.2.2 then p.lon else s.2.2)

/-- Zone scan of find_origin (mod.rs 173-195): after each zone the chosen
longitude is recomputed from the running extrema; the span is compared
against MAX_RADIAN, which the source defines as 2 pi. -/
def scanZones : ℝ × ℝ × ℝ × ℝ → List (List Location) → ℝ × ℝ × ℝ × ℝ
  | s, [] => s
  | s, z :: rest =>
      let t := z.foldl scanPoint (s.1, s.2.1, s.2.2.1)
      scanZones (t.1, t.2.1, t.2.2, if t.2.2 - t.2.1 > 2 * π then t.2.2 else t.2.1) rest

/-- find_origin (mod.rs 165-203).  The two assert macros of the source
(panics) are modelled as configuration errors; on success the origin is
the minimum latitude together with the chosen longitude at altitude 0. -/
def find_origin (flyzones : List (List Location)) : Except String Location :=
  match flyzones with
  | [] => Except.error "Require at least one flyzone"
  | _ :: _ =>
      if ∃ z ∈ flyzones, z.length ≤ 2 then
        Except.error "Require at least 3 points to construct fly zone."
      else
        let s := scanZones (2 * π, 2 * π, 0, 2 * π) flyzones
        Except.ok ⟨s.1, s.2.2.2, 0⟩

/-- Modelled from the spec: Vertex::new (vertex.rs, outside src) builds a
vertex at the given angle of the node, drawing its index from the shared
counter (passed explicitly per the design notes); location comes from the
node's own origin and radius, the search bookkeeping fields stay at their
reserved defaults. -/
def Vertex.new (idx : ℤ) (node : Node) (angle : ℝ) (conn : Option Connection) : Vertex :=
  ⟨idx, node.radius, node.to_point angle, angle, 0, 0, none, conn, false⟩

/-- Modelled from the spec: Vertex::new_sentinel (vertex.rs, outside src):
a bare vertex with no connection and the sentinel flag set. -/
def Vertex.new_sentinel (idx : ℤ) (node : Node) (angle : ℝ) : Vertex :=
  ⟨idx, node.radius, node.to_point angle, angle, 0, 0, none, none, true⟩

/-- Default node used for out-of-range list access. -/
def dNode : Node := ⟨⟨0, 0, 0⟩, 0, 0, []⟩

/-- The i-th node of the state (self.nodes of the source). -/
def nthNode (pf : Pathfinder) (i : ℕ) : Node := pf.nodes.getD i dNode

/-- Create one vertex from the shared counter and splice it into the ring
of node i (Vertex::new followed by Node::insert_vertex of the source; the
splice position inside the ring is modelled as an append, which preserves
ring membership). Bumps num_vertices by one. -/
def addVertexTo (pf : Pathfinder) (i : ℕ) (mk : ℤ → Vertex) : Pathfinder :=
  { pf with
    num_vertices := pf.num_vertices + 1,
    nodes := pf.nodes.set i
      (let nd := pf.nodes.getD i dNode
       { nd with ring := nd.ring ++ [mk pf.num_vertices] }) }

/-- insert_edge (mod.rs 75-104): create the landing vertex v on node j at
angle beta, then the owning vertex u on node i at angle alpha carrying the
Connection to v (v is created first, so it takes the lower index). -/
def insert_edge (pf : Pathfinder) (i j : ℕ) (t : ℝ × ℝ × ℝ × ℝ) : Pathfinder :=
  let vIdx := pf.num_vertices
  let pf1 := addVertexTo pf j (fun n => Vertex.new n (nthNode pf j) t.2.1 none)
  addVertexTo pf1 i
    (fun n => Vertex.new n (nthNode pf i) t.1 (some ⟨vIdx, t.2.2.1, t.2.2.2⟩))

/-- The edge-insertion loop of build_graph (mod.rs 114-123): for every
accepted tuple insert the direct edge i to j and the polarity-reversed
reciprocal edge j to i carrying the same distance and threshold. -/
def insertPaths (pf : Pathfinder) (i j : ℕ) (paths : List (ℝ × ℝ × ℝ × ℝ)) : Pathfinder :=
  paths.foldl
    (fun s t =>
      insert_edge (insert_edge s i j t) j i
        (reverse_polarity t.2.1, reverse_polarity t.1, t.2.2.1, t.2.2.2))
    pf

/-- One sentinel insertion of build_graph (mod.rs 127-144): a bare
sentinel vertex on node i at the first angle (created first, lower index)
and one on node j at the second angle.  A sentinel vertex reads only the
static part of its node, so the node lookup uses the incoming state. -/
def addSentinelPair (pf : Pathfinder) (i j : ℕ) (q : ℝ × ℝ) : Pathfinder :=
  addVertexTo (addVertexTo pf i (fun n => Vertex.new_sentinel n (nthNode pf i) q.1)) j
    (fun n => Vertex.new_sentinel n (nthNode pf j) q.2)

/-- The sentinel-insertion loop of build_graph (mod.rs 126-145). -/
def insertSentinels (pf : Pathfinder) (i j : ℕ) :
    Option (List (ℝ × ℝ)) → Pathfinder
  | none => pf
  | some ss => ss.foldl (fun s q => addSentinelPair s i j q) pf

/-- One iteration of the pair loop of build_graph (mod.rs 110-145): run
find_path, insert the direct and the polarity-reversed reciprocal edge for
every accepted tuple, then insert the bare sentinel vertices for every
sentinel angle pair (the sentinel list is the pure second component of
the same find_path call). -/
def processPair (pf : Pathfinder) (p : ℕ × ℕ) : Pathfinder :=
  insertSentinels
    (insertPaths pf p.1 p.2 (find_path pf (nthNode pf p.1) (nthNode pf p.2)).1)
    p.1 p.2 (find_path pf (nthNode pf p.1) (nthNode pf p.2)).2

/-- The ordered pairs (i, j) with i < j < n visited by the nested loops of
build_graph (mod.rs 108-109). -/
def pairsList (n : ℕ) : List (ℕ × ℕ) :=
  (List.range n).foldr
    (fun i acc => ((List.range (n - i - 1)).map (fun k => (i, i + 1 + k))) ++ acc) []

/-- Append a freshly populated node and its flyzone-sentinel vertices
(populate_nodes, mod.rs 155-159: Node::from_obstacle and
insert_flyzone_sentinel; the angles come from the external helper whose
contract the spec gives, and each sentinel vertex draws from the shared
counter). -/
def addNodeWithAngles (pf : Pathfinder) (nd : Node) (angles : List ℝ) : Pathfinder :=
  let i := pf.nodes.length
  let pf1 := { pf with nodes := pf.nodes ++ [{ nd with ring := [] }] }
  angles.foldl (fun s a => addVertexTo s i (fun n => Vertex.new_sentinel n nd a)) pf1

/-- populate_nodes (mod.rs 152-163): clear the nodes, resolve the origin,
build one node per obstacle with its flyzone sentinels, then virtualize
every flyzone into its implicit nodes. -/
def populate_nodes (pf : Pathfinder) : Except String Pathfinder :=
  match find_origin pf.flyzones with
  | Except.error e => Except.error e
  | Except.ok o =>
      let base := { pf with origin := o, nodes := [] }
      let s1 := pf.obstacles.foldl
        (fun s ob =>
          let nd := Node.from_obstacle s.proj s.origin ob pf.buffer
          addNodeWithAngles s nd (pf.sentinel_oracle pf.flyzones nd))
        base
      let s2 := pf.flyzones.foldl
        (fun s z =>
          (pf.virtual_specs z).foldl
            (fun s' sp => addNodeWithAngles s' ⟨sp.origin, sp.radius, sp.height, []⟩ sp.angles)
            s)
        s1
      Except.ok s2

/-- build_graph (mod.rs 106-150): populate the nodes, then run the pair
loop over every i < j. -/
def build_graph (pf : Pathfinder) : Except String Pathfinder :=
  match populate_nodes pf with
  | Except.error e => Except.error e
  | Except.ok s => Except.ok ((pairsList s.nodes.length).foldl processPair s)

/-- All vertices of a node list, in node order. -/
def allVerts (l : List Node) : List Vertex :=
  l.foldr (fun n acc => n.ring ++ acc) []

/-- The indices of all vertices of the state. -/
def idxList (pf : Pathfinder) : List ℤ :=
  (allVerts pf.nodes).map Vertex.index

/-- A directed edge from node i to node j with the given angles, distance
and threshold exists in the state: some vertex on the ring of node i at
angle alpha owns a Connection with that distance and threshold whose
neighbor index is a vertex on the ring of node j at angle beta. -/
def hasEdge (pf : Pathfinder) (i j : ℕ) (alpha beta d h : ℝ) : Prop :=
  ∃ u ∈ (nthNode pf i).ring, u.angle = alpha ∧
    ∃ c, u.connection = some c ∧ c.distance = d ∧ c.threshold = h ∧
      ∃ v ∈ (nthNode pf j).ring, v.index = c.neighbor ∧ v.angle = beta

/-- The edges of a polygon given as a point list: consecutive pairs plus
the implicit closing edge from the last point back to the first (the
spec-side reading of the boundary containment loop). -/
def polygonEdges (ps : List Point) : List (Point × Point) :=
  match ps with
  | [] => []
  | p :: _ => ps.zip (ps.drop 1 ++ [p])

/-- Spec-side reading of the obstacle scan: the clearance required by a
segment is the maximum height over the obstacles whose footprint it
intersects, and 0 when none does. -/
def requiredClearance (pf : Pathfinder) (a b : Point) : ℝ :=
  (pf.obstacles.map
    (fun o => if perpendicular_intersect pf.proj pf.origin a b o then o.height else 0)).foldr
    max 0

/-- x is the minimum of the list l. -/
def isMinOf (x : ℝ) (l : List ℝ) : Prop := x ∈ l ∧ ∀ y ∈ l, x ≤ y

/-- All boundary points of a flyzone list, in order. -/
def allBoundaryPoints (zs : List (List Location)) : List Location :=
  zs.foldr (fun z acc => z ++ acc) []

/-- Example pair of the spec: circle at the origin with radius 3 and a
point obstacle at distance 3 (node a of the boundary-touch example). -/
def exN3a : Node := ⟨⟨0, 0, 0⟩, 3, 0, []⟩

/-- Example pair of the spec: the radius-zero partner node at (3, 0). -/
def exN3b : Node := ⟨⟨3, 0, 0⟩, 0, 0, []⟩

/-- Example pair of the spec: circle at the origin with radius 5. -/
def exN5a : Node := ⟨⟨0, 0, 0⟩, 5, 0, []⟩

/-- Example pair of the spec: circle at (20, 0) with radius 5. -/
def exN5b : Node := ⟨⟨20, 0, 0⟩, 5, 0, []⟩

lemma atan2_zero_right (x : ℝ) (hx : 0 < x) : atan2 0 x = 0 := by
  unfold atan2
  rw [if_pos hx, zero_div, Real.arctan_zero]

lemma innerOk_iff (a b : Node) (h1 : 0 ≤ a.radius) (h2 : 0 ≤ b.radius) :
    innerOk a b ↔ 0 < a.radius ∧ 0 < b.radius ∧ nodeDist a b > a.radius + b.radius := by
  unfold innerOk
  constructor
  · rintro ⟨x, y, z⟩
    exact ⟨lt_of_le_of_ne h1 (Ne.symm x), lt_of_le_of_ne h2 (Ne.symm y), z⟩
  · rintro ⟨x, y, z⟩
    exact ⟨ne_of_gt x, ne_of_gt y, z⟩

lemma not_innerOk_ex3 : ¬ innerOk exN3a exN3b := by
  unfold innerOk exN3a exN3b
  simp

/-- C1: with both radii positive and the centers strictly farther apart
than the radius sum, find_path produces exactly the 4 tangent candidate
angle pairs (the 2 outer ones followed by the 2 inner ones) and no
sentinel list; in every other case (overlap, touching, or a zero radius)
it produces exactly the 2 outer candidates, no inner candidates, and a
sentinel list.  In particular the pair circle (0,0) r=3 and circle (3,0)
r=0 routes to the sentinel branch. -/
theorem claim_C1 (a b : Node) (h1 : 0 ≤ a.radius) (h2 : 0 ≤ b.radius) :
    (0 < a.radius ∧ 0 < b.radius ∧ nodeDist a b > a.radius + b.radius →
      findPathCandidates a b = outerCandidates a b ++ innerCandidates a b ∧
      (findPathCandidates a b).length = 4 ∧
      (outerCandidates a b).length = 2 ∧ (innerCandidates a b).length = 2 ∧
      findPathSentinels a b = none) ∧
    (¬ (0 < a.radius ∧ 0 < b.radius ∧ nodeDist a b > a.radius + b.radius) →
      findPathCandidates a b = outerCandidates a b ∧
      (findPathCandidates a b).length = 2 ∧
      (findPathSentinels a b).isSome = true) ∧
    (findPathCandidates exN3a exN3b = outerCandidates exN3a exN3b ∧
      (findPathSentinels exN3a exN3b).isSome = true) := by
  refine ⟨?_, ?_, ?_⟩
  · intro hc
    have hio : innerOk a b := (innerOk_iff a b h1 h2).mpr hc
    refine ⟨?_, ?_, ?_, ?_, ?_⟩
    · unfold findPathCandidates
      rw [if_pos hio]
    · simp [findPathCandidates, outerCandidates, innerCandidates, if_pos hio]
    · simp [outerCandidates]
    · simp [innerCandidates]
    · unfold findPathSentinels
      rw [if_pos hio]
  · intro hc
    have hio : ¬ innerOk a b := fun h => hc ((innerOk_iff a b h1 h2).mp h)
    refine ⟨?_, ?_, ?_⟩
    · unfold findPathCandidates
      rw [if_neg hio, List.append_nil]
    · simp [findPathCandidates, outerCandidates, if_neg hio]
    · unfold findPathSentinels
      rw [if_neg hio]
      rfl
  · refine ⟨?_, ?_⟩
    · unfold findPathCandidates
      rw [if_neg not_innerOk_ex3, List.append_nil]
    · unfold findPathSentinels
      rw [if_neg not_innerOk_ex3]
      rfl

/-- Witness for C1 at the radius-5 pair: the radius hypotheses hold at a
concrete input and the theorem applies there. -/
theorem claim_C1_witness :
    (0 ≤ exN5a.radius ∧ 0 ≤ exN5b.radius) ∧
    ((0 < exN5a.radius ∧ 0 < exN5b.radius ∧
        nodeDist exN5a exN5b > exN5a.radius + exN5b.radius →
      findPathCandidates exN5a exN5b = outerCandidates exN5a exN5b ++ innerCandidates exN5a exN5b ∧
      (findPathCandidates exN5a exN5b).length = 4 ∧
      (outerCandidates exN5a exN5b).length = 2 ∧ (innerCandidates exN5a exN5b).length = 2 ∧
      findPathSentinels exN5a exN5b = none) ∧
    (¬ (0 < exN5a.radius ∧ 0 < exN5b.radius ∧
        nodeDist exN5a exN5b > exN5a.radius + exN5b.radius) →
      findPathCandidates exN5a exN5b = outerCandidates exN5a exN5b ∧
      (findPathCandidates exN5a exN5b).length = 2 ∧
      (findPathSentinels exN5a exN5b).isSome = true) ∧
    (findPathCandidates exN3a exN3b = outerCandidates exN3a exN3b ∧
      (findPathSentinels exN3a exN3b).isSome = true)) :=
  ⟨⟨by norm_num [exN5a], by norm_num [exN5b]⟩,
   claim_C1 exN5a exN5b (by norm_num [exN5a]) (by norm_num [exN5b])⟩

lemma fpTheta_ex5 : fpTheta exN5a exN5b = 0 := by
  have h : fpTheta exN5a exN5b = atan2 0 20 := by
    norm_num [fpTheta, exN5a, exN5b]
  rw [h]
  exact atan2_zero_right 20 (by norm_num)

lemma nodeDist_ex5 : nodeDist exN5a exN5b = 20 := by
  have h : nodeDist exN5a exN5b = Real.sqrt 400 := by
    norm_num [nodeDist, Point.distance, exN5a, exN5b]
  rw [h, show (400 : ℝ) = 20 ^ 2 by norm_num, Real.sqrt_sq (by norm_num : (0:ℝ) ≤ 20)]

lemma fpTheta1_ex5 : fpTheta1 exN5a exN5b = 2 * π := by
  unfold fpTheta1 fpThetaPair
  rw [fpTheta_ex5]
  norm_num

lemma fpTheta2_ex5 : fpTheta2 exN5a exN5b = π := by
  unfold fpTheta2 fpThetaPair
  rw [fpTheta_ex5]
  norm_num

lemma fpGamma1_ex5 : fpGamma1 exN5a exN5b = π / 3 := by
  unfold fpGamma1
  rw [nodeDist_ex5]
  have h : |exN5a.radius + exN5b.radius| / 20 = 1 / 2 := by
    norm_num [exN5a, exN5b]
  rw [h, show (1 / 2 : ℝ) = Real.cos (π / 3) by rw [Real.cos_pi_div_three]]
  exact Real.arccos_cos (by positivity) (by linarith [Real.pi_pos])

lemma fpGamma2_ex5 : fpGamma2 exN5a exN5b = π / 2 := by
  unfold fpGamma2
  rw [nodeDist_ex5]
  have hlt : ¬ exN5b.radius > exN5a.radius := by norm_num [exN5a, exN5b]
  rw [if_neg hlt]
  have h : |exN5a.radius - exN5b.radius| / 20 = 0 := by
    norm_num [exN5a, exN5b]
  rw [h, Real.arccos_zero]

/-- C4 counterexample: for circles (0,0) r=5 and (20,0) r=5 the source
computes theta = 0, whose normalization lands in the else branch, giving
theta1 = 2 pi rather than the claimed 0; also theta2 = pi differs from
theta1 + pi, so theta1 is not theta normalized into the half-open range
from 0 to 2 pi with theta2 = theta1 + pi. -/
theorem claim_C4_cex :
    fpTheta exN5a exN5b = 0 ∧ fpTheta1 exN5a exN5b = 2 * π ∧
    fpTheta1 exN5a exN5b ≠ 0 ∧ fpTheta2 exN5a exN5b ≠ fpTheta1 exN5a exN5b + π := by
  refine ⟨fpTheta_ex5, fpTheta1_ex5, ?_, ?_⟩
  · rw [fpTheta1_ex5]
    positivity
  · rw [fpTheta2_ex5, fpTheta1_ex5]
    intro h
    nlinarith [Real.pi_pos]

/-- C4 amended: theta1 is theta for theta strictly positive and theta +
2 pi otherwise (so theta = 0 maps to 2 pi, a normalization into the range
from 0 exclusive to 2 pi inclusive), while theta2 is always theta + pi;
for the pair of circles centered at (0,0) with r=5 and (20,0) with r=5,
find_path computes theta = 0, theta1 = 2 pi, theta2 = pi,
gamma1 = acos(10/20) = pi/3, and gamma2 = acos(0/20) = pi/2. -/
theorem claim_C4_amended :
    (∀ a b : Node,
      fpTheta1 a b = (if 0 < fpTheta a b then fpTheta a b else fpTheta a b + 2 * π) ∧
      fpTheta2 a b = fpTheta a b + π) ∧
    fpTheta exN5a exN5b = 0 ∧ fpTheta1 exN5a exN5b = 2 * π ∧
    fpTheta2 exN5a exN5b = π ∧
    fpGamma1 exN5a exN5b = π / 3 ∧ fpGamma2 exN5a exN5b = π / 2 := by
  refine ⟨?_, fpTheta_ex5, fpTheta1_ex5, fpTheta2_ex5, fpGamma1_ex5, fpGamma2_ex5⟩
  intro a b
  unfold fpTheta1 fpTheta2 fpThetaPair
  by_cases h : 0 < fpTheta a b
  · rw [if_pos h, if_pos h]
    exact ⟨rfl, rfl⟩
  · rw [if_neg h, if_neg h]
    exact ⟨rfl, rfl⟩

/-- C9: whenever find_path takes the sentinel branch, the sentinel list
has exactly four angle pairs; and because the law-of-cosines divisions by
2 r1 dist and 2 r2 dist are unguarded, a zero radius makes the respective
law-of-cosines angle NaN (modelled as none), which propagates into the
corresponding component of every emitted sentinel pair. -/
theorem claim_C9 (a b : Node) :
    (¬ innerOk a b → ∃ l, findPathSentinels a b = some l ∧ l.length = 4) ∧
    (a.radius = 0 → sentinelThetaIEEE a b = none ∧
      ∀ q ∈ sentinelPairsIEEE a b, q.1 = none) ∧
    (b.radius = 0 → sentinelPhiIEEE a b = none ∧
      ∀ q ∈ sentinelPairsIEEE a b, q.2 = none) := by
  refine ⟨?_, ?_, ?_⟩
  · intro hio
    refine ⟨[(sentinelThetaS a b, π - sentinelPhiS a b),
      (-sentinelThetaS a b, π + sentinelPhiS a b),
      (-(2 * π) + sentinelThetaS a b, -π + sentinelPhiS a b),
      (2 * π - sentinelThetaS a b, -π - sentinelPhiS a b)], ?_, rfl⟩
    unfold findPathSentinels
    rw [if_neg hio]
  · intro hr
    have ht : sentinelThetaIEEE a b = none := by
      unfold sentinelThetaIEEE f32DivO
      rw [hr]
      norm_num [f32AcosO]
    refine ⟨ht, ?_⟩
    intro q hq
    simp only [sentinelPairsIEEE, ht, List.mem_cons, List.not_mem_nil, or_false] at hq
    rcases hq with h | h | h | h <;> simp [h]
  · intro hr
    have ht : sentinelPhiIEEE a b = none := by
      unfold sentinelPhiIEEE f32DivO
      rw [hr]
      norm_num [f32AcosO]
    refine ⟨ht, ?_⟩
    intro q hq
    simp only [sentinelPairsIEEE, ht, List.mem_cons, List.not_mem_nil, or_false] at hq
    rcases hq with h | h | h | h <;> simp [h]

/-- Witness for C9 at the boundary-touch example with a point obstacle:
the sentinel branch is taken with a four-element list, and the zero radius
of the second node makes the second component of every emitted pair NaN. -/
theorem claim_C9_witness :
    (¬ innerOk exN3a exN3b) ∧
    (∃ l, findPathSentinels exN3a exN3b = some l ∧ l.length = 4) ∧
    (sentinelPhiIEEE exN3a exN3b = none ∧
      ∀ q ∈ sentinelPairsIEEE exN3a exN3b, q.2 = none) :=
  ⟨not_innerOk_ex3, (claim_C9 exN3a exN3b).1 not_innerOk_ex3,
   (claim_C9 exN3a exN3b).2.2 rfl⟩

/-- C8: graph construction fails at build start when zero boundary
polygons are given or some polygon has fewer than 3 points, and origin
resolution succeeds whenever there is at least one polygon and every
polygon has at least 3 points. -/
theorem claim_C8 :
    find_origin [] = Except.error "Require at least one flyzone" ∧
    (∀ zs (z : List Location), z ∈ zs → z.length < 3 →
      ∃ e, find_origin zs = Except.error e) ∧
    (∀ zs : List (List Location), zs ≠ [] → (∀ z ∈ zs, 3 ≤ z.length) →
      ∃ loc, find_origin zs = Except.ok loc) ∧
    (∀ pf : Pathfinder,
      (pf.flyzones = [] ∨ ∃ z ∈ pf.flyzones, z.length < 3) →
      ∃ e, build_graph pf = Except.error e) := by
  have herr : ∀ zs (z : List Location), z ∈ zs → z.length < 3 →
      ∃ e, find_origin zs = Except.error e := by
    intro zs z hz hlen
    match zs with
    | [] => exact absurd hz (List.not_mem_nil z)
    | w :: rest =>
        refine ⟨"Require at least 3 points to construct fly zone.", ?_⟩
        unfold find_origin
        rw [if_pos ⟨z, hz, by omega⟩]
  refine ⟨rfl, herr, ?_, ?_⟩
  · intro zs hne hall
    match zs with
    | [] => exact absurd rfl hne
    | w :: rest =>
        have hno : ¬ ∃ z ∈ (w :: rest : List (List Location)), z.length ≤ 2 := by
          rintro ⟨z, hz, hlen⟩
          have := hall z hz
          omega
        exact ⟨_, by unfold find_origin; rw [if_neg hno]⟩
  · intro pf hbad
    have hfe : ∃ e, find_origin pf.flyzones = Except.error e := by
      rcases hbad with h | ⟨z, hz, hlen⟩
      · rw [h]
        exact ⟨_, rfl⟩
      · exact herr _ z hz hlen
    rcases hfe with ⟨e, he⟩
    refine ⟨e, ?_⟩
    unfold build_graph populate_nodes
    rw [he]

/-- Witness for C8: a two-point polygon is rejected and a triangle is
accepted, at concrete inputs. -/
theorem claim_C8_witness :
    ((⟨0, 0, 0⟩ : Location) :: [⟨0, 1, 0⟩] ∈
        [[(⟨0, 0, 0⟩ : Location), ⟨0, 1, 0⟩]] ∧
      ((⟨0, 0, 0⟩ : Location) :: [⟨0, 1, 0⟩]).length < 3) ∧
    (∃ e, find_origin [[(⟨0, 0, 0⟩ : Location), ⟨0, 1, 0⟩]] = Except.error e) ∧
    (∃ loc,
      find_origin [[(⟨0, 0, 0⟩ : Location), ⟨0, 1, 0⟩, ⟨1, 1, 0⟩]] = Except.ok loc) :=
  ⟨⟨List.mem_singleton.mpr rfl, by norm_num⟩,
   claim_C8.2.1 _ _ (List.mem_singleton.mpr rfl) (by norm_num),
   claim_C8.2.2.1 _ (by simp) (by
      intro z hz
      rw [List.mem_singleton.mp hz]
      norm_num)⟩

/-- x is the maximum of the list l. -/
def isMaxOf (x : ℝ) (l : List ℝ) : Prop := x ∈ l ∧ ∀ y ∈ l, y ≤ x

/-- Running minimum with the strict-less update of the origin scan. -/
def runMin (m : ℝ) (l : List ℝ) : ℝ :=
  l.foldl (fun m x => if x < m then x else m) m

/-- Running maximum with the strict-greater update of the origin scan. -/
def runMax (m : ℝ) (l : List ℝ) : ℝ :=
  l.foldl (fun m x => if x > m then x else m) m

lemma runMin_le_init : ∀ (l : List ℝ) (m : ℝ), runMin m l ≤ m := by
  intro l
  induction l with
  | nil => intro m; exact le_refl m
  | cons x xs ih =>
      intro m
      by_cases h : x < m
      · calc runMin m (x :: xs) = runMin x xs := by unfold runMin; rw [List.foldl_cons, if_pos h]
          _ ≤ x := ih x
          _ ≤ m := le_of_lt h
      · calc runMin m (x :: xs) = runMin m xs := by unfold runMin; rw [List.foldl_cons, if_neg h]
          _ ≤ m := ih m

lemma runMin_le_mem : ∀ (l : List ℝ) (m x : ℝ), x ∈ l → runMin m l ≤ x := by
  intro l
  induction l with
  | nil => intro m x hx; exact absurd hx (List.not_mem_nil x)
  | cons y ys ih =>
      intro m x hx
      have hstep : runMin m (y :: ys) = runMin (if y < m then y else m) ys := by
        unfold runMin
        rw [List.foldl_cons]
      rcases List.mem_cons.mp hx with h | h
      · subst h
        rw [hstep]
        calc runMin (if x < m then x else m) ys ≤ (if x < m then x else m) :=
              runMin_le_init ys _
          _ ≤ x := by by_cases hc : x < m
                      · rw [if_pos hc]
                      · rw [if_neg hc]; linarith [not_lt.mp hc]
      · rw [hstep]
        exact ih _ x h

lemma runMin_cases : ∀ (l : List ℝ) (m : ℝ), runMin m l = m ∨ runMin m l ∈ l := by
  intro l
  induction l with
  | nil => intro m; exact Or.inl rfl
  | cons y ys ih =>
      intro m
      have hstep : runMin m (y :: ys) = runMin (if y < m then y else m) ys := by
        unfold runMin
        rw [List.foldl_cons]
      rcases ih (if y < m then y else m) with h | h
      · by_cases hc : y < m
        · right
          rw [hstep, h, if_pos hc]
          exact List.mem_cons_self y ys
        · left
          rw [hstep, h, if_neg hc]
      · right
        rw [hstep]
        exact List.mem_cons_of_mem y h

lemma runMax_init_le : ∀ (l : List ℝ) (m : ℝ), m ≤ runMax m l := by
  intro l
  induction l with
  | nil => intro m; exact le_refl m
  | cons x xs ih =>
      intro m
      by_cases h : x > m
      · calc m ≤ x := le_of_lt h
          _ ≤ runMax x xs := ih x
          _ = runMax m (x :: xs) := by unfold runMax; rw [List.foldl_cons, if_pos h]
      · calc m ≤ runMax m xs := ih m
          _ = runMax m (x :: xs) := by unfold runMax; rw [List.foldl_cons, if_neg h]

lemma runMax_mem_le : ∀ (l : List ℝ) (m x : ℝ), x ∈ l → x ≤ runMax m l := by
  intro l
  induction l with
  | nil => intro m x hx; exact absurd hx (List.not_mem_nil x)
  | cons y ys ih =>
      intro m x hx
      have hstep : runMax m (y :: ys) = runMax (if y > m then y else m) ys := by
        unfold runMax
        rw [List.foldl_cons]
      rcases List.mem_cons.mp hx with h | h
      · subst h
        rw [hstep]
        calc x ≤ (if x > m then x else m) := by
              by_cases hc : x > m
              · rw [if_pos hc]
              · rw [if_neg hc]; linarith [not_lt.mp hc]
          _ ≤ runMax (if x > m then x else m) ys := runMax_init_le ys _
      · rw [hstep]
        exact ih _ x h

lemma runMax_cases : ∀ (l : List ℝ) (m : ℝ), runMax m l = m ∨ runMax m l ∈ l := by
  intro l
  induction l with
  | nil => intro m; exact Or.inl rfl
  | cons y ys ih =>
      intro m
      have hstep : runMax m (y :: ys) = runMax (if y > m then y else m) ys := by
        unfold runMax
        rw [List.foldl_cons]
      rcases ih (if y > m then y else m) with h | h
      · by_cases hc : y > m
        · right
          rw [hstep, h, if_pos hc]
          exact List.mem_cons_self y ys
        · left
          rw [hstep, h, if_neg hc]
      · right
        rw [hstep]
        exact List.mem_cons_of_mem y h

lemma foldl_scanPoint_comp : ∀ (l : List Location) (s : ℝ × ℝ × ℝ),
    l.foldl scanPoint s =
      (runMin s.1 (l.map Location.lat), runMin s.2.1 (l.map Location.lon),
       runMax s.2.2 (l.map Location.lon)) := by
  intro l
  induction l with
  | nil => intro s; rfl
  | cons p ps ih =>
      intro s
      rw [List.foldl_cons, ih]
      unfold scanPoint runMin runMax
      simp only [List.map_cons, List.foldl_cons]

lemma scanZones_fst3 : ∀ (zs : List (List Location)) (s : ℝ × ℝ × ℝ × ℝ),
    ((scanZones s zs).1, (scanZones s zs).2.1, (scanZones s zs).2.2.1) =
      (allBoundaryPoints zs).foldl scanPoint (s.1, s.2.1, s.2.2.1) := by
  intro zs
  induction zs with
  | nil => intro s; rfl
  | cons z rest ih =>
      intro s
      have hz : scanZones s (z :: rest) =
          scanZones
            ((z.foldl scanPoint (s.1, s.2.1, s.2.2.1)).1,
             (z.foldl scanPoint (s.1, s.2.1, s.2.2.1)).2.1,
             (z.foldl scanPoint (s.1, s.2.1, s.2.2.1)).2.2,
             if (z.foldl scanPoint (s.1, s.2.1, s.2.2.1)).2.2 -
                  (z.foldl scanPoint (s.1, s.2.1, s.2.2.1)).2.1 > 2 * π
             then (z.foldl scanPoint (s.1, s.2.1, s.2.2.1)).2.2
             else (z.foldl scanPoint (s.1, s.2.1, s.2.2.1)).2.1) rest := rfl
      rw [hz, ih]
      show _ = (z ++ allBoundaryPoints rest).foldl scanPoint (s.1, s.2.1, s.2.2.1)
      rw [List.foldl_append]

lemma scanZones_lon : ∀ (zs : List (List Location)) (s : ℝ × ℝ × ℝ × ℝ), zs ≠ [] →
    (scanZones s zs).2.2.2 =
      (if ((allBoundaryPoints zs).foldl scanPoint (s.1, s.2.1, s.2.2.1)).2.2 -
            ((allBoundaryPoints zs).foldl scanPoint (s.1, s.2.1, s.2.2.1)).2.1 > 2 * π
       then ((allBoundaryPoints zs).foldl scanPoint (s.1, s.2.1, s.2.2.1)).2.2
       else ((allBoundaryPoints zs).foldl scanPoint (s.1, s.2.1, s.2.2.1)).2.1) := by
  intro zs
  induction zs with
  | nil => intro s h; exact absurd rfl h
  | cons z rest ih =>
      intro s _
      match rest with
      | [] =>
          show (let t := z.foldl scanPoint (s.1, s.2.1, s.2.2.1)
                (t.1, t.2.1, t.2.2, if t.2.2 - t.2.1 > 2 * π then t.2.2 else t.2.1)).2.2.2 = _
          have happ : allBoundaryPoints [z] = z := by
            unfold allBoundaryPoints
            simp
          rw [happ]
      | w :: ws =>
          have hz : scanZones s (z :: w :: ws) =
              scanZones
                ((z.foldl scanPoint (s.1, s.2.1, s.2.2.1)).1,
                 (z.foldl scanPoint (s.1, s.2.1, s.2.2.1)).2.1,
                 (z.foldl scanPoint (s.1, s.2.1, s.2.2.1)).2.2,
                 if (z.foldl scanPoint (s.1, s.2.1, s.2.2.1)).2.2 -
                      (z.foldl scanPoint (s.1, s.2.1, s.2.2.1)).2.1 > 2 * π
                 then (z.foldl scanPoint (s.1, s.2.1, s.2.2.1)).2.2
                 else (z.foldl scanPoint (s.1, s.2.1, s.2.2.1)).2.1) (w :: ws) := rfl
          rw [hz, ih _ (by simp)]
          have key : allBoundaryPoints (z :: w :: ws) = z ++ allBoundaryPoints (w :: ws) := rfl
          rw [key, List.foldl_append]

lemma find_origin_ok (zs : List (List Location)) (hne : zs ≠ [])
    (hall : ∀ z ∈ zs, 3 ≤ z.length) :
    find_origin zs =
      Except.ok ⟨(scanZones (2 * π, 2 * π, 0, 2 * π) zs).1,
                 (scanZones (2 * π, 2 * π, 0, 2 * π) zs).2.2.2, 0⟩ := by
  match zs with
  | [] => exact absurd rfl hne
  | w :: rest =>
      have hno : ¬ ∃ z ∈ (w :: rest : List (List Location)), z.length ≤ 2 := by
        rintro ⟨z, hz, hlen⟩
        have := hall z hz
        omega
      unfold find_origin
      rw [if_neg hno]

lemma allBoundaryPoints_ne_nil (zs : List (List Location)) (hne : zs ≠ [])
    (hall : ∀ z ∈ zs, 3 ≤ z.length) : allBoundaryPoints zs ≠ [] := by
  match zs with
  | [] => exact absurd rfl hne
  | w :: rest =>
      have hw := hall w (List.mem_cons_self w rest)
      have : allBoundaryPoints (w :: rest) = w ++ allBoundaryPoints rest := rfl
      rw [this]
      intro hcontra
      rcases List.append_eq_nil.mp hcontra with ⟨h1, _⟩
      rw [h1] at hw
      simp at hw

/-- C5 counterexample: for a single polygon with longitudes 0, 4, 4 the
span 4 exceeds pi, so the claim demands the maximum longitude 4, but the
source compares the span against MAX_RADIAN = 2 pi (mod.rs 166, 192) and
therefore picks the minimum longitude 0. -/
theorem claim_C5_cex :
    find_origin [[(⟨1/10, 0, 0⟩ : Location), ⟨2/10, 4, 0⟩, ⟨3/10, 4, 0⟩]] =
      Except.ok ⟨1/10, 0, 0⟩ ∧
    isMinOf 0 ((allBoundaryPoints
        [[(⟨1/10, 0, 0⟩ : Location), ⟨2/10, 4, 0⟩, ⟨3/10, 4, 0⟩]]).map Location.lon) ∧
    isMaxOf 4 ((allBoundaryPoints
        [[(⟨1/10, 0, 0⟩ : Location), ⟨2/10, 4, 0⟩, ⟨3/10, 4, 0⟩]]).map Location.lon) ∧
    (4 : ℝ) - 0 > π ∧ (0 : ℝ) ≠ 4 := by
  have hfold : ([(⟨1/10, 0, 0⟩ : Location), ⟨2/10, 4, 0⟩, ⟨3/10, 4, 0⟩]).foldl
      scanPoint (2 * π, 2 * π, 0) = (1/10, 0, 4) := by
    rw [foldl_scanPoint_comp]
    have hlats : ([(⟨1/10, 0, 0⟩ : Location), ⟨2/10, 4, 0⟩, ⟨3/10, 4, 0⟩]).map
        Location.lat = [1/10, 2/10, 3/10] := rfl
    have hlons : ([(⟨1/10, 0, 0⟩ : Location), ⟨2/10, 4, 0⟩, ⟨3/10, 4, 0⟩]).map
        Location.lon = [0, 4, 4] := rfl
    rw [hlats, hlons]
    have e1 : runMin (2 * π) [(1/10 : ℝ), 2/10, 3/10] = 1/10 := by
      unfold runMin
      rw [List.foldl_cons, if_pos (by nlinarith [Real.pi_gt_three] : (1/10 : ℝ) < 2 * π)]
      rw [List.foldl_cons, if_neg (by norm_num : ¬ (2/10 : ℝ) < 1/10)]
      rw [List.foldl_cons, if_neg (by norm_num : ¬ (3/10 : ℝ) < 1/10)]
      rfl
    have e2 : runMin (2 * π) [(0 : ℝ), 4, 4] = 0 := by
      unfold runMin
      rw [List.foldl_cons, if_pos (by nlinarith [Real.pi_gt_three] : (0 : ℝ) < 2 * π)]
      rw [List.foldl_cons, if_neg (by norm_num : ¬ (4 : ℝ) < 0)]
      rw [List.foldl_cons, if_neg (by norm_num : ¬ (4 : ℝ) < 0)]
      rfl
    have e3 : runMax 0 [(0 : ℝ), 4, 4] = 4 := by
      unfold runMax
      rw [List.foldl_cons, if_neg (by norm_num : ¬ (0 : ℝ) > 0)]
      rw [List.foldl_cons, if_pos (by norm_num : (4 : ℝ) > 0)]
      rw [List.foldl_cons, if_neg (by norm_num : ¬ (4 : ℝ) > 4)]
      rfl
    rw [e1, e2, e3]
  refine ⟨?_, ?_, ?_, by linarith [Real.pi_lt_d2], by norm_num⟩
  · rw [find_origin_ok _ (by simp) (by intro z hz; rw [List.mem_singleton.mp hz]; norm_num)]
    have h3 := scanZones_fst3
      [[(⟨1/10, 0, 0⟩ : Location), ⟨2/10, 4, 0⟩, ⟨3/10, 4, 0⟩]] (2 * π, 2 * π, 0, 2 * π)
    have hpts : allBoundaryPoints
        [[(⟨1/10, 0, 0⟩ : Location), ⟨2/10, 4, 0⟩, ⟨3/10, 4, 0⟩]] =
        [(⟨1/10, 0, 0⟩ : Location), ⟨2/10, 4, 0⟩, ⟨3/10, 4, 0⟩] := by
      unfold allBoundaryPoints
      simp
    rw [hpts, hfold] at h3
    have hlat : (scanZones (2 * π, 2 * π, 0, 2 * π)
        [[(⟨1/10, 0, 0⟩ : Location), ⟨2/10, 4, 0⟩, ⟨3/10, 4, 0⟩]]).1 = 1/10 :=
      congrArg Prod.fst h3
    have hlon := scanZones_lon
      [[(⟨1/10, 0, 0⟩ : Location), ⟨2/10, 4, 0⟩, ⟨3/10, 4, 0⟩]]
      (2 * π, 2 * π, 0, 2 * π) (by simp)
    rw [hpts, hfold] at hlon
    have hlon2 : (scanZones (2 * π, 2 * π, 0, 2 * π)
        [[(⟨1/10, 0, 0⟩ : Location), ⟨2/10, 4, 0⟩, ⟨3/10, 4, 0⟩]]).2.2.2 = 0 := by
      rw [hlon, if_neg (by nlinarith [Real.pi_gt_three] : ¬ ((4 : ℝ) - 0 > 2 * π))]
    rw [hlat, hlon2]
  · constructor
    · show (0 : ℝ) ∈ _
      unfold allBoundaryPoints
      simp
    · intro y hy
      unfold allBoundaryPoints at hy
      simp at hy
      rcases hy with h | h <;> norm_num [h]
  · constructor
    · show (4 : ℝ) ∈ _
      unfold allBoundaryPoints
      simp
    · intro y hy
      unfold allBoundaryPoints at hy
      simp at hy
      rcases hy with h | h <;> norm_num [h]

lemma runMin_isMinOf (l : List ℝ) (m : ℝ) (hl : l ≠ []) (hb : ∀ x ∈ l, x ≤ m) :
    isMinOf (runMin m l) l := by
  constructor
  · rcases runMin_cases l m with h | h
    · obtain ⟨x, hx⟩ := List.exists_mem_of_ne_nil l hl
      have h1 := runMin_le_mem l m x hx
      have h2 : x ≤ runMin m l := by rw [h]; exact hb x hx
      rw [le_antisymm h1 h2]
      exact hx
    · exact h
  · intro y hy
    exact runMin_le_mem l m y hy

/-- C5 amended: find_origin computes the minimum latitude and both
longitude extrema and produces (min latitude, chosen longitude, altitude
0); the chosen longitude is the minimum longitude unless the longitude
span exceeds 2 pi (the MAX_RADIAN constant of the source), not pi, and
for longitudes inside one revolution the span can never exceed 2 pi, so
the minimum longitude is chosen. -/
theorem claim_C5_amended (zs : List (List Location)) (hne : zs ≠ [])
    (hall : ∀ z ∈ zs, 3 ≤ z.length)
    (hlat : ∀ p ∈ allBoundaryPoints zs, p.lat ≤ 2 * π)
    (hlon0 : ∀ p ∈ allBoundaryPoints zs, 0 ≤ p.lon)
    (hlon2 : ∀ p ∈ allBoundaryPoints zs, p.lon ≤ 2 * π) :
    ∃ loc, find_origin zs = Except.ok loc ∧ loc.alt = 0 ∧
      isMinOf loc.lat ((allBoundaryPoints zs).map Location.lat) ∧
      isMinOf loc.lon ((allBoundaryPoints zs).map Location.lon) := by
  have hptsne := allBoundaryPoints_ne_nil zs hne hall
  have hmapne : ∀ f : Location → ℝ, (allBoundaryPoints zs).map f ≠ [] := by
    intro f hc
    exact hptsne (List.map_eq_nil_iff.mp hc)
  have hlatb : ∀ x ∈ (allBoundaryPoints zs).map Location.lat, x ≤ 2 * π := by
    intro x hx
    obtain ⟨p, hp, rfl⟩ := List.mem_map.mp hx
    exact hlat p hp
  have hlonb : ∀ x ∈ (allBoundaryPoints zs).map Location.lon, x ≤ 2 * π := by
    intro x hx
    obtain ⟨p, hp, rfl⟩ := List.mem_map.mp hx
    exact hlon2 p hp
  have hlonb0 : ∀ x ∈ (allBoundaryPoints zs).map Location.lon, 0 ≤ x := by
    intro x hx
    obtain ⟨p, hp, rfl⟩ := List.mem_map.mp hx
    exact hlon0 p hp
  have h3 := scanZones_fst3 zs (2 * π, 2 * π, 0, 2 * π)
  rw [foldl_scanPoint_comp] at h3
  have hlon := scanZones_lon zs (2 * π, 2 * π, 0, 2 * π) hne
  rw [foldl_scanPoint_comp] at hlon
  dsimp only at h3 hlon
  have hlat1 : (scanZones (2 * π, 2 * π, 0, 2 * π) zs).1 =
      runMin (2 * π) ((allBoundaryPoints zs).map Location.lat) := congrArg Prod.fst h3
  have hmax : runMax 0 ((allBoundaryPoints zs).map Location.lon) ≤ 2 * π := by
    rcases runMax_cases ((allBoundaryPoints zs).map Location.lon) 0 with h | h
    · rw [h]
      positivity
    · exact hlonb _ h
  have hmin0 : 0 ≤ runMin (2 * π) ((allBoundaryPoints zs).map Location.lon) := by
    rcases runMin_cases ((allBoundaryPoints zs).map Location.lon) (2 * π) with h | h
    · rw [h]
      positivity
    · exact hlonb0 _ h
  have hlon1 : (scanZones (2 * π, 2 * π, 0, 2 * π) zs).2.2.2 =
      runMin (2 * π) ((allBoundaryPoints zs).map Location.lon) := by
    rw [hlon]
    exact if_neg (by linarith)
  refine ⟨⟨runMin (2 * π) ((allBoundaryPoints zs).map Location.lat),
           runMin (2 * π) ((allBoundaryPoints zs).map Location.lon), 0⟩, ?_, rfl, ?_, ?_⟩
  · rw [find_origin_ok zs hne hall, hlat1, hlon1]
  · exact runMin_isMinOf _ _ (hmapne Location.lat) hlatb
  · exact runMin_isMinOf _ _ (hmapne Location.lon) hlonb

/-- Witness for C5 at a concrete triangle with small radian coordinates. -/
theorem claim_C5_witness :
    (([[(⟨1/10, 1/2, 0⟩ : Location), ⟨2/10, 1, 0⟩, ⟨3/10, 3/2, 0⟩]] :
        List (List Location)) ≠ [] ∧
      (∀ z ∈ ([[(⟨1/10, 1/2, 0⟩ : Location), ⟨2/10, 1, 0⟩, ⟨3/10, 3/2, 0⟩]] :
        List (List Location)), 3 ≤ z.length) ∧
      (∀ p ∈ allBoundaryPoints
          [[(⟨1/10, 1/2, 0⟩ : Location), ⟨2/10, 1, 0⟩, ⟨3/10, 3/2, 0⟩]],
        p.lat ≤ 2 * π) ∧
      (∀ p ∈ allBoundaryPoints
          [[(⟨1/10, 1/2, 0⟩ : Location), ⟨2/10, 1, 0⟩, ⟨3/10, 3/2, 0⟩]],
        0 ≤ p.lon) ∧
      (∀ p ∈ allBoundaryPoints
          [[(⟨1/10, 1/2, 0⟩ : Location), ⟨2/10, 1, 0⟩, ⟨3/10, 3/2, 0⟩]],
        p.lon ≤ 2 * π)) ∧
    (∃ loc,
      find_origin [[(⟨1/10, 1/2, 0⟩ : Location), ⟨2/10, 1, 0⟩, ⟨3/10, 3/2, 0⟩]] =
        Except.ok loc ∧ loc.alt = 0 ∧
      isMinOf loc.lat ((allBoundaryPoints
        [[(⟨1/10, 1/2, 0⟩ : Location), ⟨2/10, 1, 0⟩, ⟨3/10, 3/2, 0⟩]]).map Location.lat) ∧
      isMinOf loc.lon ((allBoundaryPoints
        [[(⟨1/10, 1/2, 0⟩ : Location), ⟨2/10, 1, 0⟩, ⟨3/10, 3/2, 0⟩]]).map Location.lon)) := by
  have hpts : allBoundaryPoints
      [[(⟨1/10, 1/2, 0⟩ : Location), ⟨2/10, 1, 0⟩, ⟨3/10, 3/2, 0⟩]] =
      [(⟨1/10, 1/2, 0⟩ : Location), ⟨2/10, 1, 0⟩, ⟨3/10, 3/2, 0⟩] := by
    unfold allBoundaryPoints
    simp
  have h1 : ([[(⟨1/10, 1/2, 0⟩ : Location), ⟨2/10, 1, 0⟩, ⟨3/10, 3/2, 0⟩]] :
      List (List Location)) ≠ [] := by simp
  have h2 : ∀ z ∈ ([[(⟨1/10, 1/2, 0⟩ : Location), ⟨2/10, 1, 0⟩, ⟨3/10, 3/2, 0⟩]] :
      List (List Location)), 3 ≤ z.length := by
    intro z hz
    rw [List.mem_singleton.mp hz]
    norm_num
  have h3 : ∀ p ∈ allBoundaryPoints
      [[(⟨1/10, 1/2, 0⟩ : Location), ⟨2/10, 1, 0⟩, ⟨3/10, 3/2, 0⟩]], p.lat ≤ 2 * π := by
    rw [hpts]
    intro p hp
    have hpi := Real.pi_gt_three
    rcases List.mem_cons.mp hp with h | h
    · rw [h]; show (1/10 : ℝ) ≤ 2 * π; linarith
    · rcases List.mem_cons.mp h with h' | h'
      · rw [h']; show (2/10 : ℝ) ≤ 2 * π; linarith
      · rw [List.mem_singleton.mp h']; show (3/10 : ℝ) ≤ 2 * π; linarith
  have h4 : ∀ p ∈ allBoundaryPoints
      [[(⟨1/10, 1/2, 0⟩ : Location), ⟨2/10, 1, 0⟩, ⟨3/10, 3/2, 0⟩]], 0 ≤ p.lon := by
    rw [hpts]
    intro p hp
    rcases List.mem_cons.mp hp with h | h
    · rw [h]; norm_num
    · rcases List.mem_cons.mp h with h' | h'
      · rw [h']; norm_num
      · rw [List.mem_singleton.mp h']; norm_num
  have h5 : ∀ p ∈ allBoundaryPoints
      [[(⟨1/10, 1/2, 0⟩ : Location), ⟨2/10, 1, 0⟩, ⟨3/10, 3/2, 0⟩]], p.lon ≤ 2 * π := by
    rw [hpts]
    intro p hp
    have hpi := Real.pi_gt_three
    rcases List.mem_cons.mp hp with h | h
    · rw [h]; show (1/2 : ℝ) ≤ 2 * π; linarith
    · rcases List.mem_cons.mp h with h' | h'
      · rw [h']; show (1 : ℝ) ≤ 2 * π; linarith
      · rw [List.mem_singleton.mp h']; show (3/2 : ℝ) ≤ 2 * π; linarith
  exact ⟨⟨h1, h2, h3, h4, h5⟩, claim_C5_amended _ h1 h2 h3 h4 h5⟩

lemma foldr_max_nonneg : ∀ l : List ℝ, 0 ≤ l.foldr max 0 := by
  intro l
  induction l with
  | nil => exact le_refl 0
  | cons x xs ih =>
      calc (0 : ℝ) ≤ xs.foldr max 0 := ih
        _ ≤ max x (xs.foldr max 0) := le_max_right _ _
        _ = (x :: xs).foldr max 0 := rfl

lemma foldr_max_mem_le : ∀ (l : List ℝ) (x : ℝ), x ∈ l → x ≤ l.foldr max 0 := by
  intro l
  induction l with
  | nil => intro x hx; exact absurd hx (List.not_mem_nil x)
  | cons y ys ih =>
      intro x hx
      rcases List.mem_cons.mp hx with h | h
      · subst h
        exact le_max_left _ _
      · calc x ≤ ys.foldr max 0 := ih x h
          _ ≤ max y (ys.foldr max 0) := le_max_right _ _

lemma foldr_max_cases : ∀ l : List ℝ, l.foldr max 0 = 0 ∨ l.foldr max 0 ∈ l := by
  intro l
  induction l with
  | nil => exact Or.inl rfl
  | cons y ys ih =>
      have hfold : (y :: ys).foldr max 0 = max y (ys.foldr max 0) := rfl
      rw [hfold]
      rcases le_or_lt (ys.foldr max 0) y with h | h
      · right
        rw [max_eq_left h]
        exact List.mem_cons_self y ys
      · rw [max_eq_right (le_of_lt h)]
        rcases ih with h' | h'
        · exact Or.inl h'
        · exact Or.inr (List.mem_cons_of_mem y h')

lemma foldl_clamp_eq_foldr_max (P : Obstacle → Prop) :
    ∀ (l : List Obstacle) (m : ℝ), 0 ≤ m →
      l.foldl (fun m o => if P o ∧ m < o.height then o.height else m) m =
        max m ((l.map (fun o => if P o then o.height else 0)).foldr max 0) := by
  intro l
  induction l with
  | nil =>
      intro m hm
      show m = max m 0
      rw [max_eq_left hm]
  | cons o t ih =>
      intro m hm
      have hstep : (if P o ∧ m < o.height then o.height else m) =
          max m (if P o then o.height else 0) := by
        by_cases hp : P o
        · rw [if_pos hp]
          by_cases hlt : m < o.height
          · rw [if_pos ⟨hp, hlt⟩, max_eq_right (le_of_lt hlt)]
          · rw [if_neg (fun hc => hlt hc.2), max_eq_left (not_lt.mp hlt)]
        · rw [if_neg (fun hc => hp hc.1), if_neg hp, max_eq_left hm]
      show List.foldl _ (if P o ∧ m < o.height then o.height else m) t = _
      rw [hstep, ih _ (le_trans hm (le_max_left _ _))]
      show max (max m (if P o then o.height else 0)) _ =
        max m (max (if P o then o.height else 0) _)
      rw [max_assoc]

lemma obstacleMaxHeight_eq (pf : Pathfinder) (a b : Point) :
    obstacleMaxHeight pf a b = requiredClearance pf a b := by
  unfold obstacleMaxHeight requiredClearance
  rw [foldl_clamp_eq_foldr_max _ _ _ (le_refl 0), max_eq_right (foldr_max_nonneg _)]

/-- C2: for every segment not blocked by a boundary, valid_path reports
Flyover h where h is the maximum height over all obstacles whose circular
footprint the segment intersects (0 when none intersects); obstacle
intersection never by itself yields Invalid.  The single- and
two-obstacle cases of the claim follow from the maximum characterization. -/
theorem claim_C2 (pf : Pathfinder) (a b : Point)
    (hb : ¬ boundaryBlocked pf a b)
    (_hh : ∀ o ∈ pf.obstacles, 0 ≤ o.height) :
    valid_path pf a b = PathValidity.Flyover (requiredClearance pf a b) ∧
    (∀ o ∈ pf.obstacles, perpendicular_intersect pf.proj pf.origin a b o →
      o.height ≤ requiredClearance pf a b) ∧
    ((∀ o ∈ pf.obstacles, ¬ perpendicular_intersect pf.proj pf.origin a b o) →
      requiredClearance pf a b = 0) ∧
    (requiredClearance pf a b = 0 ∨
      ∃ o ∈ pf.obstacles, perpendicular_intersect pf.proj pf.origin a b o ∧
        requiredClearance pf a b = o.height) := by
  refine ⟨?_, ?_, ?_, ?_⟩
  · unfold valid_path
    rw [if_neg hb, obstacleMaxHeight_eq]
  · intro o ho hint
    have hg : o.height = (if perpendicular_intersect pf.proj pf.origin a b o
        then o.height else 0) := (if_pos hint).symm
    rw [hg]
    exact foldr_max_mem_le _ _ (List.mem_map_of_mem _ ho)
  · intro hnone
    rcases foldr_max_cases (pf.obstacles.map
        (fun o => if perpendicular_intersect pf.proj pf.origin a b o then o.height else 0))
      with h | h
    · exact h
    · obtain ⟨o, ho, hval⟩ := List.mem_map.mp h
      unfold requiredClearance
      rw [← hval, if_neg (hnone o ho)]
  · rcases foldr_max_cases (pf.obstacles.map
        (fun o => if perpendicular_intersect pf.proj pf.origin a b o then o.height else 0))
      with h | h
    · exact Or.inl h
    · obtain ⟨o, ho, hval⟩ := List.mem_map.mp h
      by_cases hp : perpendicular_intersect pf.proj pf.origin a b o
      · right
        refine ⟨o, ho, hp, ?_⟩
        unfold requiredClearance
        rw [← hval, if_pos hp]
      · left
        unfold requiredClearance
        rw [← hval, if_neg hp]

/-- Concrete projection for the witnesses: longitude to x, latitude to y,
ignoring the origin (a valid instance of the external collaborator). -/
def projXY : Location → Location → ℝ × ℝ := fun _ l => (l.lon, l.lat)

/-- Concrete square flyzone used by the witnesses. -/
def sqZone : List Location :=
  [⟨-50, -50, 0⟩, ⟨-50, 50, 0⟩, ⟨50, 50, 0⟩, ⟨50, -50, 0⟩]

lemma sq_blocked_iff (o : Location) (a b : Point) :
    zoneBlocked projXY o a b sqZone ↔
      (intersect a b ⟨-50, -50, 0⟩ ⟨50, -50, 0⟩ ∨
       (intersect a b ⟨50, -50, 0⟩ ⟨50, 50, 0⟩ ∨
        (intersect a b ⟨50, 50, 0⟩ ⟨-50, 50, 0⟩ ∨
         intersect a b ⟨-50, 50, 0⟩ ⟨-50, -50, 0⟩))) :=
  Iff.rfl

/-- Concrete obstacle of height 1 at planar position (-2, 0). -/
def obC2a : Obstacle := ⟨⟨0, -2, 0⟩, 1, 1⟩

/-- Concrete obstacle of height 2 at planar position (2, 0). -/
def obC2b : Obstacle := ⟨⟨0, 2, 0⟩, 1, 2⟩

/-- Concrete Pathfinder state with the square flyzone and two obstacles. -/
def pfC2 : Pathfinder :=
  ⟨[sqZone], [obC2a, obC2b], 0, ⟨0, 0, 0⟩, 0, [], projXY, fun _ _ => [], fun _ => []⟩

lemma pfC2_not_blocked : ¬ boundaryBlocked pfC2 ⟨-5, 0, 0⟩ ⟨5, 0, 0⟩ := by
  rintro ⟨z, hz, hblk⟩
  have hzz : z = sqZone := List.mem_singleton.mp hz
  subst hzz
  rw [show pfC2.proj = projXY from rfl] at hblk
  rw [sq_blocked_iff] at hblk
  rcases hblk with h | h | h | h
  · exact absurd h (by norm_num [intersect, orient])
  · exact absurd h (by norm_num [intersect, orient])
  · exact absurd h (by norm_num [intersect, orient])
  · exact absurd h (by norm_num [intersect, orient])

/-- Witness for C2: a concrete boundary-clear segment through two
obstacles of heights 1 and 2, with nonnegative heights. -/
theorem claim_C2_witness :
    (¬ boundaryBlocked pfC2 ⟨-5, 0, 0⟩ ⟨5, 0, 0⟩ ∧
      ∀ o ∈ pfC2.obstacles, 0 ≤ o.height) ∧
    (valid_path pfC2 ⟨-5, 0, 0⟩ ⟨5, 0, 0⟩ =
        PathValidity.Flyover (requiredClearance pfC2 ⟨-5, 0, 0⟩ ⟨5, 0, 0⟩) ∧
      (∀ o ∈ pfC2.obstacles,
        perpendicular_intersect pfC2.proj pfC2.origin ⟨-5, 0, 0⟩ ⟨5, 0, 0⟩ o →
          o.height ≤ requiredClearance pfC2 ⟨-5, 0, 0⟩ ⟨5, 0, 0⟩) ∧
      ((∀ o ∈ pfC2.obstacles,
        ¬ perpendicular_intersect pfC2.proj pfC2.origin ⟨-5, 0, 0⟩ ⟨5, 0, 0⟩ o) →
          requiredClearance pfC2 ⟨-5, 0, 0⟩ ⟨5, 0, 0⟩ = 0) ∧
      (requiredClearance pfC2 ⟨-5, 0, 0⟩ ⟨5, 0, 0⟩ = 0 ∨
        ∃ o ∈ pfC2.obstacles,
          perpendicular_intersect pfC2.proj pfC2.origin ⟨-5, 0, 0⟩ ⟨5, 0, 0⟩ o ∧
            requiredClearance pfC2 ⟨-5, 0, 0⟩ ⟨5, 0, 0⟩ = o.height)) := by
  have hh : ∀ o ∈ pfC2.obstacles, 0 ≤ o.height := by
    intro o ho
    have : o = obC2a ∨ o = obC2b := by
      have : pfC2.obstacles = [obC2a, obC2b] := rfl
      rw [this] at ho
      rcases List.mem_cons.mp ho with h | h
      · exact Or.inl h
      · exact Or.inr (List.mem_singleton.mp h)
    rcases this with h | h
    · rw [h]; norm_num [obC2a]
    · rw [h]; norm_num [obC2b]
  exact ⟨⟨pfC2_not_blocked, hh⟩, claim_C2 pfC2 _ _ pfC2_not_blocked hh⟩

/-- The chain of edges walked by the boundary scan: temp to each next
point, then the closing edge back to first. -/
def edgeChain (t : Point) (rest : List Point) (f : Point) : List (Point × Point) :=
  match rest with
  | [] => [(t, f)]
  | p :: r => (t, p) :: edgeChain p r f

lemma zoneBlockedFrom_iff (a b first : Point) :
    ∀ (rest : List Point) (temp : Point),
      zoneBlockedFrom a b first temp rest ↔
        ∃ e ∈ edgeChain temp rest first, intersect a b e.1 e.2 := by
  intro rest
  induction rest with
  | nil =>
      intro temp
      show intersect a b temp first ↔ _
      constructor
      · intro h
        exact ⟨(temp, first), List.mem_singleton.mpr rfl, h⟩
      · rintro ⟨e, he, hint⟩
        rw [List.mem_singleton.mp he] at hint
        exact hint
  | cons p r ih =>
      intro temp
      show intersect a b temp p ∨ zoneBlockedFrom a b first p r ↔ _
      rw [ih p]
      constructor
      · rintro (h | ⟨e, he, hint⟩)
        · exact ⟨(temp, p), List.mem_cons_self _ _, h⟩
        · exact ⟨e, List.mem_cons_of_mem _ he, hint⟩
      · rintro ⟨e, he, hint⟩
        rcases List.mem_cons.mp he with h | h
        · subst h
          exact Or.inl hint
        · exact Or.inr ⟨e, h, hint⟩

lemma zip_edgeChain : ∀ (rest : List Point) (t f : Point),
    (t :: rest).zip (rest ++ [f]) = edgeChain t rest f := by
  intro rest
  induction rest with
  | nil => intro t f; rfl
  | cons p r ih =>
      intro t f
      show (t, p) :: (p :: r).zip (r ++ [f]) = (t, p) :: edgeChain p r f
      rw [ih p f]

lemma polygonEdges_cons (f : Point) (rest : List Point) :
    polygonEdges (f :: rest) = edgeChain f rest f := by
  unfold polygonEdges
  exact zip_edgeChain rest f f

lemma boundaryBlocked_iff_edges (pf : Pathfinder) (a b : Point) :
    boundaryBlocked pf a b ↔
      ∃ zone ∈ pf.flyzones,
        ∃ e ∈ polygonEdges (zone.map (Point.from_location pf.proj pf.origin)),
          intersect a b e.1 e.2 := by
  unfold boundaryBlocked
  have hsplit : ∀ z : List Location,
      z.map (Point.from_location pf.proj pf.origin) = [] ∨
      ∃ f rest, z.map (Point.from_location pf.proj pf.origin) = f :: rest := by
    intro z
    cases hz : z.map (Point.from_location pf.proj pf.origin) with
    | nil => exact Or.inl rfl
    | cons f r => exact Or.inr ⟨f, r, rfl⟩
  constructor
  · rintro ⟨z, hz, hblk⟩
    refine ⟨z, hz, ?_⟩
    unfold zoneBlocked at hblk
    rcases hsplit z with hm | ⟨f, rest, hm⟩
    · rw [hm] at hblk
      exact absurd hblk id
    · rw [hm] at hblk
      rw [hm, polygonEdges_cons]
      exact (zoneBlockedFrom_iff a b f rest f).mp hblk
  · rintro ⟨z, hz, e, he, hint⟩
    refine ⟨z, hz, ?_⟩
    unfold zoneBlocked
    rcases hsplit z with hm | ⟨f, rest, hm⟩
    · rw [hm, polygonEdges] at he
      exact absurd he (List.not_mem_nil e)
    · rw [hm, polygonEdges_cons] at he
      rw [hm]
      exact (zoneBlockedFrom_iff a b f rest f).mpr ⟨e, he, hint⟩

/-- C6: valid_path returns Invalid exactly when the candidate segment
intersects some edge of some boundary polygon (consecutive pairs plus the
implicit closing edge), and a boundary hit makes the result Invalid
independently of the obstacle list (the obstacle scan is short-circuited). -/
theorem claim_C6 (pf : Pathfinder) (a b : Point) :
    (valid_path pf a b = PathValidity.Invalid ↔
      ∃ zone ∈ pf.flyzones,
        ∃ e ∈ polygonEdges (zone.map (Point.from_location pf.proj pf.origin)),
          intersect a b e.1 e.2) ∧
    (∀ obs : List Obstacle,
      (∃ zone ∈ pf.flyzones,
        ∃ e ∈ polygonEdges (zone.map (Point.from_location pf.proj pf.origin)),
          intersect a b e.1 e.2) →
      valid_path { pf with obstacles := obs } a b = PathValidity.Invalid) := by
  have hmain : valid_path pf a b = PathValidity.Invalid ↔ boundaryBlocked pf a b := by
    unfold valid_path
    by_cases h : boundaryBlocked pf a b
    · rw [if_pos h]
      exact ⟨fun _ => h, fun _ => rfl⟩
    · rw [if_neg h]
      constructor
      · intro hc
        exact absurd hc (by intro hcc; cases hcc)
      · intro hc
        exact absurd hc h
  refine ⟨hmain.trans (boundaryBlocked_iff_edges pf a b), ?_⟩
  intro obs hedge
  have hbb : boundaryBlocked { pf with obstacles := obs } a b := by
    have : boundaryBlocked { pf with obstacles := obs } a b ↔ boundaryBlocked pf a b :=
      Iff.rfl
    rw [this]
    exact (boundaryBlocked_iff_edges pf a b).mpr hedge
  unfold valid_path
  rw [if_pos hbb]

/-- Witness for C6: a segment that crosses the right edge of the square
flyzone is Invalid no matter the obstacle list. -/
theorem claim_C6_witness :
    (∃ zone ∈ pfC2.flyzones,
      ∃ e ∈ polygonEdges (zone.map (Point.from_location pfC2.proj pfC2.origin)),
        intersect ⟨0, 0, 0⟩ ⟨100, 0, 0⟩ e.1 e.2) ∧
    valid_path { pfC2 with obstacles := [] } ⟨0, 0, 0⟩ ⟨100, 0, 0⟩ =
      PathValidity.Invalid := by
  have hmem : ((⟨50, -50, 0⟩ : Point), (⟨50, 50, 0⟩ : Point)) ∈
      polygonEdges (sqZone.map (Point.from_location pfC2.proj pfC2.origin)) := by
    rw [show sqZone.map (Point.from_location pfC2.proj pfC2.origin) =
      [⟨-50, -50, 0⟩, ⟨50, -50, 0⟩, ⟨50, 50, 0⟩, ⟨-50, 50, 0⟩] from rfl]
    rw [show polygonEdges
        [(⟨-50, -50, 0⟩ : Point), ⟨50, -50, 0⟩, ⟨50, 50, 0⟩, ⟨-50, 50, 0⟩] =
      [((⟨-50, -50, 0⟩ : Point), (⟨50, -50, 0⟩ : Point)),
       (⟨50, -50, 0⟩, ⟨50, 50, 0⟩), (⟨50, 50, 0⟩, ⟨-50, 50, 0⟩),
       (⟨-50, 50, 0⟩, ⟨-50, -50, 0⟩)] from rfl]
    simp
  have hint : intersect ⟨0, 0, 0⟩ ⟨100, 0, 0⟩ ⟨50, -50, 0⟩ ⟨50, 50, 0⟩ := by
    norm_num [intersect, orient]
  have hedge : ∃ zone ∈ pfC2.flyzones,
      ∃ e ∈ polygonEdges (zone.map (Point.from_location pfC2.proj pfC2.origin)),
        intersect ⟨0, 0, 0⟩ ⟨100, 0, 0⟩ e.1 e.2 :=
    ⟨sqZone, List.mem_singleton.mpr rfl, _, hmem, hint⟩
  exact ⟨hedge, (claim_C6 pfC2 ⟨0, 0, 0⟩ ⟨100, 0, 0⟩).2 [] hedge⟩

lemma valid_path_ne_valid (pf : Pathfinder) (a b : Point) :
    valid_path pf a b ≠ PathValidity.Valid := by
  unfold valid_path
  by_cases h : boundaryBlocked pf a b
  · rw [if_pos h]
    intro hc
    cases hc
  · rw [if_neg h]
    intro hc
    cases hc

lemma valid_path_flyover_nonneg (pf : Pathfinder) (a b : Point) (h : ℝ)
    (hv : valid_path pf a b = PathValidity.Flyover h) : 0 ≤ h := by
  unfold valid_path at hv
  by_cases hb : boundaryBlocked pf a b
  · rw [if_pos hb] at hv
    cases hv
  · rw [if_neg hb] at hv
    have := (PathValidity.Flyover.injEq _ _).mp hv
    rw [← this, obstacleMaxHeight_eq]
    exact foldr_max_nonneg _

/-- C10: valid_path never returns Valid; every segment not blocked by a
boundary yields Flyover h with h nonnegative (Flyover 0 when nothing
intersects), so the Valid arm of find_path is unreachable and every
accepted tuple's threshold is the value of a Flyover result, hence
nonnegative. -/
theorem claim_C10 (pf : Pathfinder) :
    (∀ a b : Point, valid_path pf a b ≠ PathValidity.Valid) ∧
    (∀ a b : Point, ¬ boundaryBlocked pf a b →
      ∃ h, valid_path pf a b = PathValidity.Flyover h ∧ 0 ≤ h) ∧
    (∀ (na nb : Node) (t : ℝ × ℝ × ℝ × ℝ), t ∈ (find_path pf na nb).1 →
      0 ≤ t.2.2.2 ∧
        valid_path pf (na.to_point t.1) (nb.to_point t.2.1) =
          PathValidity.Flyover t.2.2.2) := by
  refine ⟨valid_path_ne_valid pf, ?_, ?_⟩
  · intro a b hb
    refine ⟨obstacleMaxHeight pf a b, ?_, ?_⟩
    · unfold valid_path
      rw [if_neg hb]
    · rw [obstacleMaxHeight_eq]
      exact foldr_max_nonneg _
  · intro na nb t ht
    obtain ⟨c, hcmem, hc⟩ := List.mem_filterMap.mp ht
    dsimp only at hc
    cases hval : valid_path pf (na.to_point c.1) (nb.to_point c.2) with
    | Valid => exact absurd hval (valid_path_ne_valid pf _ _)
    | Invalid =>
        rw [hval] at hc
        cases hc
    | Flyover h =>
        rw [hval] at hc
        have heq := Option.some.inj hc
        rw [← heq]
        exact ⟨valid_path_flyover_nonneg pf _ _ h hval, hval⟩

lemma getD_set_eval : ∀ (l : List Node) (n i : ℕ) (a : Node),
    (l.set n a).getD i dNode =
      if i = n ∧ n < l.length then a else l.getD i dNode := by
  intro l
  induction l with
  | nil =>
      intro n i a
      simp
  | cons x t ih =>
      intro n i a
      match n, i with
      | 0, 0 => simp
      | 0, j + 1 => simp
      | m + 1, 0 => simp
      | m + 1, j + 1 =>
          show (t.set m a).getD j dNode = _
          rw [ih m j a]
          by_cases h : j = m ∧ m < t.length
          · rw [if_pos h,
              if_pos (by simp only [List.length_cons]; omega :
                j + 1 = m + 1 ∧ m + 1 < (x :: t).length)]
          · rw [if_neg h,
              if_neg (by simp only [List.length_cons]; omega :
                ¬ (j + 1 = m + 1 ∧ m + 1 < (x :: t).length))]
            rfl

lemma nthNode_addVertexTo (σ : Pathfinder) (n : ℕ) (mk : ℤ → Vertex) (i : ℕ) :
    nthNode (addVertexTo σ n mk) i =
      if i = n ∧ n < σ.nodes.length
      then { nthNode σ n with ring := (nthNode σ n).ring ++ [mk σ.num_vertices] }
      else nthNode σ i := by
  unfold nthNode addVertexTo
  exact getD_set_eval σ.nodes n i _

lemma addVertexTo_length (σ : Pathfinder) (n : ℕ) (mk : ℤ → Vertex) :
    (addVertexTo σ n mk).nodes.length = σ.nodes.length := by
  unfold addVertexTo
  exact List.length_set σ.nodes n _

lemma addVertexTo_num (σ : Pathfinder) (n : ℕ) (mk : ℤ → Vertex) :
    (addVertexTo σ n mk).num_vertices = σ.num_vertices + 1 := rfl

/-- The two states agree on everything find_path reads: configuration
fields and the static (origin, radius, height) part of every node. -/
def staticLike (σ σ' : Pathfinder) : Prop :=
  σ'.flyzones = σ.flyzones ∧ σ'.obstacles = σ.obstacles ∧ σ'.origin = σ.origin ∧
  σ'.proj = σ.proj ∧ σ'.nodes.length = σ.nodes.length ∧
  ∀ i : ℕ, (nthNode σ' i).origin = (nthNode σ i).origin ∧
    (nthNode σ' i).radius = (nthNode σ i).radius ∧
    (nthNode σ' i).height = (nthNode σ i).height

lemma staticLike_refl (σ : Pathfinder) : staticLike σ σ :=
  ⟨rfl, rfl, rfl, rfl, rfl, fun _ => ⟨rfl, rfl, rfl⟩⟩

lemma staticLike_trans {σ1 σ2 σ3 : Pathfinder}
    (h12 : staticLike σ1 σ2) (h23 : staticLike σ2 σ3) : staticLike σ1 σ3 := by
  obtain ⟨a1, a2, a3, a4, a5, a6⟩ := h12
  obtain ⟨b1, b2, b3, b4, b5, b6⟩ := h23
  refine ⟨b1.trans a1, b2.trans a2, b3.trans a3, b4.trans a4, b5.trans a5, ?_⟩
  intro i
  exact ⟨(b6 i).1.trans (a6 i).1, (b6 i).2.1.trans (a6 i).2.1, (b6 i).2.2.trans (a6 i).2.2⟩

lemma staticLike_addVertexTo (σ : Pathfinder) (n : ℕ) (mk : ℤ → Vertex) :
    staticLike σ (addVertexTo σ n mk) := by
  refine ⟨rfl, rfl, rfl, rfl, addVertexTo_length σ n mk, ?_⟩
  intro i
  rw [nthNode_addVertexTo]
  by_cases h : i = n ∧ n < σ.nodes.length
  · rw [if_pos h, h.1]
    exact ⟨rfl, rfl, rfl⟩
  · rw [if_neg h]
    exact ⟨rfl, rfl, rfl⟩

lemma staticLike_insert_edge (σ : Pathfinder) (i j : ℕ) (t : ℝ × ℝ × ℝ × ℝ) :
    staticLike σ (insert_edge σ i j t) :=
  staticLike_trans (staticLike_addVertexTo σ j _) (staticLike_addVertexTo _ i _)

lemma staticLike_foldl {α} (step : Pathfinder → α → Pathfinder)
    (hstep : ∀ σ x, staticLike σ (step σ x)) :
    ∀ (l : List α) (σ : Pathfinder), staticLike σ (l.foldl step σ) := by
  intro l
  induction l with
  | nil => intro σ; exact staticLike_refl σ
  | cons x xs ih =>
      intro σ
      exact staticLike_trans (hstep σ x) (ih (step σ x))

lemma staticLike_insertPaths (σ : Pathfinder) (i j : ℕ) (paths : List (ℝ × ℝ × ℝ × ℝ)) :
    staticLike σ (insertPaths σ i j paths) :=
  staticLike_foldl _
    (fun s t => staticLike_trans (staticLike_insert_edge s i j t)
      (staticLike_insert_edge _ j i _)) paths σ

lemma staticLike_addSentinelPair (σ : Pathfinder) (i j : ℕ) (q : ℝ × ℝ) :
    staticLike σ (addSentinelPair σ i j q) :=
  staticLike_trans (staticLike_addVertexTo σ i _) (staticLike_addVertexTo _ j _)

lemma staticLike_insertSentinels (σ : Pathfinder) (i j : ℕ) :
    ∀ opt : Option (List (ℝ × ℝ)), staticLike σ (insertSentinels σ i j opt) := by
  intro opt
  cases opt with
  | none => exact staticLike_refl σ
  | some ss =>
      exact staticLike_foldl _ (fun s q => staticLike_addSentinelPair s i j q) ss σ

lemma staticLike_processPair (σ : Pathfinder) (p : ℕ × ℕ) :
    staticLike σ (processPair σ p) :=
  staticLike_trans
    (staticLike_insertPaths σ p.1 p.2 _)
    (staticLike_insertSentinels _ p.1 p.2 _)

lemma allVerts_append : ∀ l1 l2 : List Node,
    allVerts (l1 ++ l2) = allVerts l1 ++ allVerts l2 := by
  intro l1 l2
  induction l1 with
  | nil => rfl
  | cons x t ih =>
      show x.ring ++ allVerts (t ++ l2) = (x.ring ++ allVerts t) ++ allVerts l2
      rw [ih, List.append_assoc]

lemma allVerts_set_count (k : ℤ) : ∀ (l : List Node) (n : ℕ) (v : Vertex) (nd : Node),
    n < l.length → nd.ring = (l.getD n dNode).ring ++ [v] →
    ((allVerts (l.set n nd)).map Vertex.index).count k =
      ((allVerts l).map Vertex.index).count k + (if v.index = k then 1 else 0) := by
  intro l
  induction l with
  | nil =>
      intro n v nd hn _
      simp at hn
  | cons x t ih =>
      intro n v nd hn hring
      have hone : ([v.index] : List ℤ).count k = if v.index = k then 1 else 0 := by
        by_cases h : v.index = k
        · rw [if_pos h, h]
          simp
        · rw [if_neg h, List.count_eq_zero]
          intro hc
          exact h (List.mem_singleton.mp hc).symm
      match n with
      | 0 =>
          simp only [List.getD_cons_zero] at hring
          show ((allVerts (nd :: t)).map Vertex.index).count k = _
          have h1 : allVerts (nd :: t) = nd.ring ++ allVerts t := rfl
          have h2 : allVerts (x :: t) = x.ring ++ allVerts t := rfl
          rw [h1, h2, hring, List.append_assoc]
          simp only [List.map_append, List.count_append, List.map_cons, List.map_nil]
          rw [hone]
          split_ifs <;> omega
      | m + 1 =>
          have hm : m < t.length := by
            simp only [List.length_cons] at hn
            omega
          simp only [List.getD_cons_succ] at hring
          show ((allVerts (x :: t.set m nd)).map Vertex.index).count k = _
          have h1 : allVerts (x :: t.set m nd) = x.ring ++ allVerts (t.set m nd) := rfl
          have h2 : allVerts (x :: t) = x.ring ++ allVerts t := rfl
          rw [h1, h2]
          simp only [List.map_append, List.count_append]
          rw [ih m v nd hm hring]
          split_ifs <;> omega

/-- The vertex-index invariant: the counter is nonnegative and the
indices present in the state are exactly 0 to num_vertices - 1, each
exactly once. -/
def vertexInv (σ : Pathfinder) : Prop :=
  0 ≤ σ.num_vertices ∧
  ∀ k : ℤ, (idxList σ).count k = if 0 ≤ k ∧ k < σ.num_vertices then 1 else 0

lemma vertexInv_addVertexTo (σ : Pathfinder) (n : ℕ) (mk : ℤ → Vertex)
    (hn : n < σ.nodes.length) (hmk : (mk σ.num_vertices).index = σ.num_vertices)
    (hinv : vertexInv σ) : vertexInv (addVertexTo σ n mk) := by
  obtain ⟨h0, hcount⟩ := hinv
  refine ⟨by rw [addVertexTo_num]; omega, ?_⟩
  intro k
  have hc := allVerts_set_count k σ.nodes n (mk σ.num_vertices)
    { σ.nodes.getD n dNode with
        ring := (σ.nodes.getD n dNode).ring ++ [mk σ.num_vertices] } hn rfl
  have hl : idxList (addVertexTo σ n mk) =
      (allVerts (σ.nodes.set n
        { σ.nodes.getD n dNode with
            ring := (σ.nodes.getD n dNode).ring ++ [mk σ.num_vertices] })).map
        Vertex.index := rfl
  rw [hl, hc, hmk]
  have hi : idxList σ = (allVerts σ.nodes).map Vertex.index := rfl
  rw [← hi, hcount k, addVertexTo_num]
  split_ifs <;> omega

lemma vertexInv_insert_edge (σ : Pathfinder) (i j : ℕ) (t : ℝ × ℝ × ℝ × ℝ)
    (hi : i < σ.nodes.length) (hj : j < σ.nodes.length)
    (hinv : vertexInv σ) : vertexInv (insert_edge σ i j t) := by
  unfold insert_edge
  refine vertexInv_addVertexTo _ i _ ?_ rfl
    (vertexInv_addVertexTo σ j _ hj rfl hinv)
  rw [addVertexTo_length]
  exact hi

lemma vertexInv_addSentinelPair (σ : Pathfinder) (i j : ℕ) (q : ℝ × ℝ)
    (hi : i < σ.nodes.length) (hj : j < σ.nodes.length)
    (hinv : vertexInv σ) : vertexInv (addSentinelPair σ i j q) := by
  unfold addSentinelPair
  refine vertexInv_addVertexTo _ j _ ?_ rfl
    (vertexInv_addVertexTo σ i _ hi rfl hinv)
  rw [addVertexTo_length]
  exact hj

lemma foldl_preserve_mem {α : Type} (P : Pathfinder → Prop)
    (step : Pathfinder → α → Pathfinder) :
    ∀ (l : List α), (∀ σ x, x ∈ l → P σ → P (step σ x)) →
      ∀ σ, P σ → P (l.foldl step σ) := by
  intro l
  induction l with
  | nil => intro _ σ h; exact h
  | cons x xs ih =>
      intro hstep σ h
      exact ih (fun σ' y hy => hstep σ' y (List.mem_cons_of_mem x hy))
        (step σ x) (hstep σ x (List.mem_cons_self x xs) h)

lemma insert_edge_length (σ : Pathfinder) (i j : ℕ) (t : ℝ × ℝ × ℝ × ℝ) :
    (insert_edge σ i j t).nodes.length = σ.nodes.length := by
  unfold insert_edge
  rw [addVertexTo_length, addVertexTo_length]

lemma addSentinelPair_length (σ : Pathfinder) (i j : ℕ) (q : ℝ × ℝ) :
    (addSentinelPair σ i j q).nodes.length = σ.nodes.length := by
  unfold addSentinelPair
  rw [addVertexTo_length, addVertexTo_length]

lemma vertexInv_insertPaths (σ : Pathfinder) (i j : ℕ)
    (paths : List (ℝ × ℝ × ℝ × ℝ)) (hi : i < σ.nodes.length)
    (hj : j < σ.nodes.length) (hinv : vertexInv σ) :
    vertexInv (insertPaths σ i j paths) ∧
      (insertPaths σ i j paths).nodes.length = σ.nodes.length := by
  unfold insertPaths
  have := foldl_preserve_mem
    (fun s => vertexInv s ∧ s.nodes.length = σ.nodes.length)
    (fun s t =>
      insert_edge (insert_edge s i j t) j i
        (reverse_polarity t.2.1, reverse_polarity t.1, t.2.2.1, t.2.2.2))
    paths ?_ σ ⟨hinv, rfl⟩
  · exact this
  · intro s t _ hs
    obtain ⟨hvi, hlen⟩ := hs
    constructor
    · exact vertexInv_insert_edge _ j i _
        (by rw [insert_edge_length, hlen]; exact hj)
        (by rw [insert_edge_length, hlen]; exact hi)
        (vertexInv_insert_edge s i j t (by rw [hlen]; exact hi)
          (by rw [hlen]; exact hj) hvi)
    · rw [insert_edge_length, insert_edge_length, hlen]

lemma vertexInv_insertSentinels (σ : Pathfinder) (i j : ℕ)
    (opt : Option (List (ℝ × ℝ))) (hi : i < σ.nodes.length)
    (hj : j < σ.nodes.length) (hinv : vertexInv σ) :
    vertexInv (insertSentinels σ i j opt) ∧
      (insertSentinels σ i j opt).nodes.length = σ.nodes.length := by
  cases opt with
  | none => exact ⟨hinv, rfl⟩
  | some ss =>
      show vertexInv (ss.foldl (fun s q => addSentinelPair s i j q) σ) ∧ _
      have := foldl_preserve_mem
        (fun s => vertexInv s ∧ s.nodes.length = σ.nodes.length)
        (fun s q => addSentinelPair s i j q) ss ?_ σ ⟨hinv, rfl⟩
      · exact this
      · intro s q _ hs
        obtain ⟨hvi, hlen⟩ := hs
        refine ⟨vertexInv_addSentinelPair s i j q (by rw [hlen]; exact hi)
          (by rw [hlen]; exact hj) hvi, ?_⟩
        rw [addSentinelPair_length, hlen]

lemma vertexInv_processPair (σ : Pathfinder) (p : ℕ × ℕ)
    (hi : p.1 < σ.nodes.length) (hj : p.2 < σ.nodes.length)
    (hinv : vertexInv σ) :
    vertexInv (processPair σ p) ∧
      (processPair σ p).nodes.length = σ.nodes.length := by
  unfold processPair
  obtain ⟨h1, h2⟩ := vertexInv_insertPaths σ p.1 p.2
    (find_path σ (nthNode σ p.1) (nthNode σ p.2)).1 hi hj hinv
  obtain ⟨h3, h4⟩ := vertexInv_insertSentinels _ p.1 p.2
    (find_path σ (nthNode σ p.1) (nthNode σ p.2)).2
    (by rw [h2]; exact hi) (by rw [h2]; exact hj) h1
  exact ⟨h3, by rw [h4, h2]⟩

lemma mem_foldr_append {α β : Type} (f : α → List β) :
    ∀ (l : List α) (p : β),
      p ∈ l.foldr (fun i acc => f i ++ acc) [] ↔ ∃ i ∈ l, p ∈ f i := by
  intro l
  induction l with
  | nil =>
      intro p
      simp
  | cons x xs ih =>
      intro p
      show p ∈ f x ++ xs.foldr (fun i acc => f i ++ acc) [] ↔ _
      rw [List.mem_append, ih p]
      constructor
      · rintro (h | ⟨i, hi, hp⟩)
        · exact ⟨x, List.mem_cons_self x xs, h⟩
        · exact ⟨i, List.mem_cons_of_mem x hi, hp⟩
      · rintro ⟨i, hi, hp⟩
        rcases List.mem_cons.mp hi with h | h
        · subst h
          exact Or.inl hp
        · exact Or.inr ⟨i, h, hp⟩

lemma pairsList_mem_iff (n : ℕ) (p : ℕ × ℕ) :
    p ∈ pairsList n ↔ p.1 < p.2 ∧ p.2 < n := by
  unfold pairsList
  rw [mem_foldr_append (fun i => (List.range (n - i - 1)).map (fun k => (i, i + 1 + k))) _ p]
  constructor
  · rintro ⟨i, hi, hp⟩
    obtain ⟨k, hk, hpk⟩ := List.mem_map.mp hp
    have hin : i < n := List.mem_range.mp hi
    have hkn : k < n - i - 1 := List.mem_range.mp hk
    rw [← hpk]
    constructor
    · show i < i + 1 + k
      omega
    · show i + 1 + k < n
      omega
  · rintro ⟨h1, h2⟩
    refine ⟨p.1, List.mem_range.mpr (by omega), ?_⟩
    refine List.mem_map.mpr ⟨p.2 - p.1 - 1, List.mem_range.mpr (by omega), ?_⟩
    have : p.1 + 1 + (p.2 - p.1 - 1) = p.2 := by omega
    rw [this]

lemma vertexInv_addNodeWithAngles (σ : Pathfinder) (nd : Node) (angles : List ℝ)
    (hinv : vertexInv σ) : vertexInv (addNodeWithAngles σ nd angles) := by
  unfold addNodeWithAngles
  have hbase : vertexInv { σ with nodes := σ.nodes ++ [{ nd with ring := [] }] } := by
    obtain ⟨h0, hcount⟩ := hinv
    refine ⟨h0, ?_⟩
    intro k
    have hl : idxList { σ with nodes := σ.nodes ++ [{ nd with ring := [] }] } =
        (allVerts (σ.nodes ++ [{ nd with ring := [] }])).map Vertex.index := rfl
    rw [hl, allVerts_append]
    have hnil : allVerts [{ nd with ring := [] }] = [] := rfl
    rw [hnil, List.append_nil]
    exact hcount k
  have hlen : σ.nodes.length <
      ({ σ with nodes := σ.nodes ++ [{ nd with ring := [] }] } : Pathfinder).nodes.length := by
    show σ.nodes.length < (σ.nodes ++ [{ nd with ring := [] }]).length
    rw [List.length_append]
    simp
  exact (foldl_preserve_mem
    (fun s => vertexInv s ∧ σ.nodes.length < s.nodes.length)
    (fun s a => addVertexTo s σ.nodes.length (fun n => Vertex.new_sentinel n nd a))
    angles
    (fun s a _ hs =>
      ⟨vertexInv_addVertexTo s σ.nodes.length _ hs.2 rfl hs.1,
       by rw [addVertexTo_length]; exact hs.2⟩)
    _ ⟨hbase, hlen⟩).1

lemma vertexInv_populate (pf σ' : Pathfinder) (h0 : pf.num_vertices = 0)
    (hp : populate_nodes pf = Except.ok σ') : vertexInv σ' := by
  unfold populate_nodes at hp
  cases hfo : find_origin pf.flyzones with
  | error e =>
      rw [hfo] at hp
      cases hp
  | ok o =>
      rw [hfo] at hp
      have hσ := Except.ok.inj hp
      have hbase : vertexInv { pf with origin := o, nodes := [] } := by
        constructor
        · show (0 : ℤ) ≤ pf.num_vertices
          rw [h0]
        · intro k
          have hl : idxList { pf with origin := o, nodes := [] } = [] := rfl
          rw [hl]
          have hnum : ({ pf with origin := o, nodes := [] } : Pathfinder).num_vertices
              = 0 := h0
          rw [hnum]
          have : ¬ (0 ≤ k ∧ k < (0 : ℤ)) := by omega
          rw [if_neg this]
          rfl
      have h1 : vertexInv (pf.obstacles.foldl
          (fun s ob =>
            let nd := Node.from_obstacle s.proj s.origin ob pf.buffer
            addNodeWithAngles s nd (pf.sentinel_oracle pf.flyzones nd))
          { pf with origin := o, nodes := [] }) :=
        foldl_preserve_mem vertexInv _ pf.obstacles
          (fun s ob _ hs => vertexInv_addNodeWithAngles s _ _ hs) _ hbase
      have h2 : vertexInv (pf.flyzones.foldl
          (fun s z =>
            (pf.virtual_specs z).foldl
              (fun s' sp =>
                addNodeWithAngles s' ⟨sp.origin, sp.radius, sp.height, []⟩ sp.angles)
              s)
          (pf.obstacles.foldl
            (fun s ob =>
              let nd := Node.from_obstacle s.proj s.origin ob pf.buffer
              addNodeWithAngles s nd (pf.sentinel_oracle pf.flyzones nd))
            { pf with origin := o, nodes := [] })) :=
        foldl_preserve_mem vertexInv _ pf.flyzones
          (fun s z _ hs =>
            foldl_preserve_mem vertexInv _ (pf.virtual_specs z)
              (fun s' sp _ hs' => vertexInv_addNodeWithAngles s' _ _ hs') s hs)
          _ h1
      rw [← hσ]
      exact h2

/-- C7: all vertex indices of one build are drawn from the single shared
counter: in the final state the indices are exactly 0 to num_vertices - 1
(each exactly once, so all distinct), assigned in creation order because
every vertex takes the current counter value, which then increments. -/
theorem claim_C7 (pf σ' : Pathfinder) (h0 : pf.num_vertices = 0)
    (hb : build_graph pf = Except.ok σ') :
    (idxList σ').Nodup ∧
      ∀ k : ℤ, (idxList σ').count k =
        if 0 ≤ k ∧ k < σ'.num_vertices then 1 else 0 := by
  unfold build_graph at hb
  cases hp : populate_nodes pf with
  | error e =>
      rw [hp] at hb
      cases hb
  | ok s =>
      rw [hp] at hb
      have hσ := Except.ok.inj hb
      have hs : vertexInv s := vertexInv_populate pf s h0 hp
      have hfold : vertexInv ((pairsList s.nodes.length).foldl processPair s) ∧
          ((pairsList s.nodes.length).foldl processPair s).nodes.length
            = s.nodes.length :=
        foldl_preserve_mem
          (fun σ => vertexInv σ ∧ σ.nodes.length = s.nodes.length)
          processPair (pairsList s.nodes.length)
          (fun σ p hp' hσp => by
            obtain ⟨hin1, hin2⟩ := (pairsList_mem_iff s.nodes.length p).mp hp'
            obtain ⟨ha, hbl⟩ := vertexInv_processPair σ p
              (by omega) (by rw [hσp.2]; exact hin2) hσp.1
            exact ⟨ha, by rw [hbl, hσp.2]⟩)
          s ⟨hs, rfl⟩
      rw [← hσ]
      refine ⟨?_, hfold.1.2⟩
      rw [List.nodup_iff_count_le_one]
      intro a
      rw [hfold.1.2 a]
      split_ifs <;> omega

lemma valid_path_congr (σ σ' : Pathfinder) (h : staticLike σ σ') (a b : Point) :
    valid_path σ' a b = valid_path σ a b := by
  obtain ⟨h1, h2, h3, h4, _, _⟩ := h
  unfold valid_path boundaryBlocked obstacleMaxHeight
  rw [h1, h2, h3, h4]

lemma find_path_congr (σ σ' : Pathfinder) (hst : staticLike σ σ') (a b : Node) :
    find_path σ' a b = find_path σ a b := by
  have hv : ∀ p q : Point, valid_path σ' p q = valid_path σ p q :=
    valid_path_congr σ σ' hst
  unfold find_path
  simp only [hv]

lemma find_path_node_congr (σ : Pathfinder) (a a' b b' : Node)
    (ha1 : a'.origin = a.origin) (ha2 : a'.radius = a.radius) (ha3 : a'.height = a.height)
    (hb1 : b'.origin = b.origin) (hb2 : b'.radius = b.radius) (hb3 : b'.height = b.height) :
    find_path σ a' b' = find_path σ a b := by
  cases a with
  | mk ao ar ah ag =>
      cases a' with
      | mk ao' ar' ah' ag' =>
          cases b with
          | mk bo br bh bg =>
              cases b' with
              | mk bo' br' bh' bg' =>
                  dsimp only at ha1 ha2 ha3 hb1 hb2 hb3
                  subst ha1 ha2 ha3 hb1 hb2 hb3
                  rfl

lemma find_path_transport (σ σ' : Pathfinder) (h : staticLike σ σ') (i j : ℕ) :
    find_path σ' (nthNode σ' i) (nthNode σ' j) =
      find_path σ (nthNode σ i) (nthNode σ j) := by
  rw [find_path_congr σ σ' h]
  exact find_path_node_congr σ _ _ _ _
    (h.2.2.2.2.2 i).1 (h.2.2.2.2.2 i).2.1 (h.2.2.2.2.2 i).2.2
    (h.2.2.2.2.2 j).1 (h.2.2.2.2.2 j).2.1 (h.2.2.2.2.2 j).2.2

lemma ring_mono_addVertexTo (σ : Pathfinder) (n : ℕ) (mk : ℤ → Vertex) (i : ℕ) :
    ∀ w : Vertex, w ∈ (nthNode σ i).ring →
      w ∈ (nthNode (addVertexTo σ n mk) i).ring := by
  intro w hw
  rw [nthNode_addVertexTo]
  by_cases h : i = n ∧ n < σ.nodes.length
  · rw [if_pos h]
    show w ∈ (nthNode σ n).ring ++ [mk σ.num_vertices]
    rw [← h.1]
    exact List.mem_append_left _ hw
  · rw [if_neg h]
    exact hw

lemma hasEdge_mono_addVertexTo (σ : Pathfinder) (n : ℕ) (mk : ℤ → Vertex)
    (i j : ℕ) (α β d h : ℝ) (he : hasEdge σ i j α β d h) :
    hasEdge (addVertexTo σ n mk) i j α β d h := by
  obtain ⟨u, hu, hα, c, hc, hd, hh, v, hv, hvi, hvβ⟩ := he
  exact ⟨u, ring_mono_addVertexTo σ n mk i u hu, hα, c, hc, hd, hh,
    v, ring_mono_addVertexTo σ n mk j v hv, hvi, hvβ⟩

lemma hasEdge_mono_insert_edge (σ : Pathfinder) (n m : ℕ) (t : ℝ × ℝ × ℝ × ℝ)
    (i j : ℕ) (α β d h : ℝ) (he : hasEdge σ i j α β d h) :
    hasEdge (insert_edge σ n m t) i j α β d h :=
  hasEdge_mono_addVertexTo _ _ _ i j α β d h
    (hasEdge_mono_addVertexTo _ _ _ i j α β d h he)

lemma hasEdge_mono_insertPaths (n m : ℕ) (i j : ℕ) (α β d h : ℝ) :
    ∀ (paths : List (ℝ × ℝ × ℝ × ℝ)) (σ : Pathfinder),
      hasEdge σ i j α β d h → hasEdge (insertPaths σ n m paths) i j α β d h := by
  intro paths
  induction paths with
  | nil => intro σ he; exact he
  | cons x xs ih =>
      intro σ he
      exact ih _ (hasEdge_mono_insert_edge _ m n _ i j α β d h
        (hasEdge_mono_insert_edge σ n m x i j α β d h he))

lemma hasEdge_mono_addSentinelPair (σ : Pathfinder) (n m : ℕ) (q : ℝ × ℝ)
    (i j : ℕ) (α β d h : ℝ) (he : hasEdge σ i j α β d h) :
    hasEdge (addSentinelPair σ n m q) i j α β d h :=
  hasEdge_mono_addVertexTo _ _ _ i j α β d h
    (hasEdge_mono_addVertexTo _ _ _ i j α β d h he)

lemma hasEdge_mono_insertSentinels (σ : Pathfinder) (n m : ℕ)
    (opt : Option (List (ℝ × ℝ))) (i j : ℕ) (α β d h : ℝ)
    (he : hasEdge σ i j α β d h) :
    hasEdge (insertSentinels σ n m opt) i j α β d h := by
  cases opt with
  | none => exact he
  | some ss =>
      show hasEdge (ss.foldl (fun s q => addSentinelPair s n m q) σ) i j α β d h
      induction ss generalizing σ with
      | nil => exact he
      | cons x xs ih =>
          exact ih _ (hasEdge_mono_addSentinelPair σ n m x i j α β d h he)

lemma hasEdge_mono_processPair (σ : Pathfinder) (p : ℕ × ℕ)
    (i j : ℕ) (α β d h : ℝ) (he : hasEdge σ i j α β d h) :
    hasEdge (processPair σ p) i j α β d h :=
  hasEdge_mono_insertSentinels _ p.1 p.2 _ i j α β d h
    (hasEdge_mono_insertPaths p.1 p.2 i j α β d h _ σ he)

lemma hasEdge_mono_foldl_processPair (i j : ℕ) (α β d h : ℝ) :
    ∀ (L : List (ℕ × ℕ)) (σ : Pathfinder),
      hasEdge σ i j α β d h → hasEdge (L.foldl processPair σ) i j α β d h := by
  intro L
  induction L with
  | nil => intro σ he; exact he
  | cons p rest ih =>
      intro σ he
      exact ih _ (hasEdge_mono_processPair σ p i j α β d h he)

lemma insert_edge_hasEdge (σ : Pathfinder) (i j : ℕ) (t : ℝ × ℝ × ℝ × ℝ)
    (hij : i ≠ j) (hi : i < σ.nodes.length) (hj : j < σ.nodes.length) :
    hasEdge (insert_edge σ i j t) i j t.1 t.2.1 t.2.2.1 t.2.2.2 := by
  unfold insert_edge
  have h1 : nthNode (addVertexTo σ j
      (fun n => Vertex.new n (nthNode σ j) t.2.1 none)) j =
      { nthNode σ j with
        ring := (nthNode σ j).ring ++ [Vertex.new σ.num_vertices (nthNode σ j) t.2.1 none] } := by
    rw [nthNode_addVertexTo, if_pos ⟨rfl, hj⟩]
  have h2 : nthNode (addVertexTo σ j
      (fun n => Vertex.new n (nthNode σ j) t.2.1 none)) i = nthNode σ i := by
    rw [nthNode_addVertexTo, if_neg (fun hc => hij hc.1)]
  refine ⟨Vertex.new (σ.num_vertices + 1) (nthNode σ i) t.1
      (some ⟨σ.num_vertices, t.2.2.1, t.2.2.2⟩), ?_, rfl,
    ⟨σ.num_vertices, t.2.2.1, t.2.2.2⟩, rfl, rfl, rfl,
    Vertex.new σ.num_vertices (nthNode σ j) t.2.1 none, ?_, rfl, rfl⟩
  · rw [nthNode_addVertexTo, if_pos ⟨rfl, by rw [addVertexTo_length]; exact hi⟩, h2]
    show _ ∈ (nthNode σ i).ring ++ [_]
    rw [addVertexTo_num]
    exact List.mem_append_right _ (List.mem_singleton.mpr rfl)
  · rw [nthNode_addVertexTo, if_neg (fun hc => hij hc.1.symm), h1]
    show _ ∈ (nthNode σ j).ring ++ [_]
    exact List.mem_append_right _ (List.mem_singleton.mpr rfl)

lemma insertPaths_hasEdge (i j : ℕ) (hij : i ≠ j) :
    ∀ (paths : List (ℝ × ℝ × ℝ × ℝ)) (σ : Pathfinder),
      i < σ.nodes.length → j < σ.nodes.length →
      ∀ t ∈ paths,
        hasEdge (insertPaths σ i j paths) i j t.1 t.2.1 t.2.2.1 t.2.2.2 ∧
        hasEdge (insertPaths σ i j paths) j i
          (reverse_polarity t.2.1) (reverse_polarity t.1) t.2.2.1 t.2.2.2 := by
  intro paths
  induction paths with
  | nil =>
      intro σ _ _ t ht
      exact absurd ht (List.not_mem_nil t)
  | cons x xs ih =>
      intro σ hi hj t ht
      have hstep : insertPaths σ i j (x :: xs) =
          insertPaths (insert_edge (insert_edge σ i j x) j i
            (reverse_polarity x.2.1, reverse_polarity x.1, x.2.2.1, x.2.2.2)) i j xs := rfl
      rcases List.mem_cons.mp ht with h | h
      · subst h
        rw [hstep]
        constructor
        · exact hasEdge_mono_insertPaths i j i j _ _ _ _ xs _
            (hasEdge_mono_insert_edge _ j i _ i j _ _ _ _
              (insert_edge_hasEdge σ i j t hij hi hj))
        · exact hasEdge_mono_insertPaths i j j i _ _ _ _ xs _
            (insert_edge_hasEdge _ j i
              (reverse_polarity t.2.1, reverse_polarity t.1, t.2.2.1, t.2.2.2)
              (fun hc => hij hc.symm)
              (by rw [insert_edge_length]; exact hj)
              (by rw [insert_edge_length]; exact hi))
      · rw [hstep]
        exact ih _ (by rw [insert_edge_length, insert_edge_length]; exact hi)
          (by rw [insert_edge_length, insert_edge_length]; exact hj) t h

lemma processPair_hasEdge (σ : Pathfinder) (p : ℕ × ℕ) (hij : p.1 ≠ p.2)
    (hi : p.1 < σ.nodes.length) (hj : p.2 < σ.nodes.length)
    (t : ℝ × ℝ × ℝ × ℝ)
    (ht : t ∈ (find_path σ (nthNode σ p.1) (nthNode σ p.2)).1) :
    hasEdge (processPair σ p) p.1 p.2 t.1 t.2.1 t.2.2.1 t.2.2.2 ∧
    hasEdge (processPair σ p) p.2 p.1
      (reverse_polarity t.2.1) (reverse_polarity t.1) t.2.2.1 t.2.2.2 := by
  unfold processPair
  obtain ⟨h1, h2⟩ := insertPaths_hasEdge p.1 p.2 hij
    (find_path σ (nthNode σ p.1) (nthNode σ p.2)).1 σ hi hj t ht
  exact ⟨hasEdge_mono_insertSentinels _ p.1 p.2 _ _ _ _ _ _ _ h1,
    hasEdge_mono_insertSentinels _ p.1 p.2 _ _ _ _ _ _ _ h2⟩

lemma foldl_processPair_hasEdge (i j : ℕ) (hij : i ≠ j) :
    ∀ (L : List (ℕ × ℕ)) (σ : Pathfinder),
      (∀ p ∈ L, p.1 < σ.nodes.length ∧ p.2 < σ.nodes.length) →
      (i, j) ∈ L →
      ∀ t, t ∈ (find_path σ (nthNode σ i) (nthNode σ j)).1 →
        hasEdge (L.foldl processPair σ) i j t.1 t.2.1 t.2.2.1 t.2.2.2 ∧
        hasEdge (L.foldl processPair σ) j i
          (reverse_polarity t.2.1) (reverse_polarity t.1) t.2.2.1 t.2.2.2 := by
  intro L
  induction L with
  | nil =>
      intro σ _ hmem t _
      exact absurd hmem (List.not_mem_nil _)
  | cons p rest ih =>
      intro σ hbound hmem t ht
      have hfold : (p :: rest).foldl processPair σ =
          rest.foldl processPair (processPair σ p) := rfl
      rcases List.mem_cons.mp hmem with h | h
      · have hp : p = (i, j) := h.symm
        subst hp
        obtain ⟨h1, h2⟩ := processPair_hasEdge σ (i, j) hij
          (hbound (i, j) (List.mem_cons_self _ _)).1
          (hbound (i, j) (List.mem_cons_self _ _)).2 t ht
        rw [hfold]
        exact ⟨hasEdge_mono_foldl_processPair i j _ _ _ _ rest _ h1,
          hasEdge_mono_foldl_processPair j i _ _ _ _ rest _ h2⟩
      · rw [hfold]
        have hstat := staticLike_processPair σ p
        have hlen : (processPair σ p).nodes.length = σ.nodes.length := hstat.2.2.2.2.1
        refine ih (processPair σ p) ?_ h t ?_
        · intro q hq
          rw [hlen]
          exact hbound q (List.mem_cons_of_mem p hq)
        · rw [find_path_transport σ (processPair σ p) hstat i j]
          exact ht

/-- C3: for every accepted tangent tuple (alpha, beta, distance,
threshold) found for the node pair (i, j), build_graph inserts the
directed edge i to j with angles (alpha, beta) and the reciprocal edge
j to i with angles (reverse_polarity beta, reverse_polarity alpha), both
with identical distance and identical threshold. -/
theorem claim_C3 (pf σ' : Pathfinder) (hb : build_graph pf = Except.ok σ')
    (i j : ℕ) (hij : i < j) (hj : j < σ'.nodes.length)
    (t : ℝ × ℝ × ℝ × ℝ)
    (ht : t ∈ (find_path σ' (nthNode σ' i) (nthNode σ' j)).1) :
    hasEdge σ' i j t.1 t.2.1 t.2.2.1 t.2.2.2 ∧
    hasEdge σ' j i (reverse_polarity t.2.1) (reverse_polarity t.1)
      t.2.2.1 t.2.2.2 := by
  unfold build_graph at hb
  cases hp : populate_nodes pf with
  | error e =>
      rw [hp] at hb
      cases hb
  | ok s =>
      rw [hp] at hb
      have hσ := Except.ok.inj hb
      have hstat : staticLike s σ' := by
        rw [← hσ]
        exact staticLike_foldl processPair staticLike_processPair _ s
      have hlen : σ'.nodes.length = s.nodes.length := hstat.2.2.2.2.1
      have hmem : (i, j) ∈ pairsList s.nodes.length :=
        (pairsList_mem_iff s.nodes.length (i, j)).mpr ⟨hij, by rw [← hlen]; exact hj⟩
      have hts : t ∈ (find_path s (nthNode s i) (nthNode s j)).1 := by
        rw [← find_path_transport s σ' hstat i j]
        exact ht
      have := foldl_processPair_hasEdge i j (Nat.ne_of_lt hij)
        (pairsList s.nodes.length) s
        (fun p hp' => by
          obtain ⟨a1, a2⟩ := (pairsList_mem_iff s.nodes.length p).mp hp'
          exact ⟨by omega, a2⟩)
        hmem t hts
      rw [← hσ]
      exact this

lemma cos_three_pi_div_two : Real.cos (3 * π / 2) = 0 := by
  rw [show (3 * π / 2 : ℝ) = π + π / 2 by ring, Real.cos_add, Real.cos_pi,
    Real.sin_pi, Real.cos_pi_div_two, Real.sin_pi_div_two]
  ring

lemma sin_three_pi_div_two : Real.sin (3 * π / 2) = -1 := by
  rw [show (3 * π / 2 : ℝ) = π + π / 2 by ring, Real.sin_add, Real.cos_pi,
    Real.sin_pi, Real.cos_pi_div_two, Real.sin_pi_div_two]
  ring

lemma floor_three_quarters : ⌊(3 / 4 : ℝ)⌋ = 0 := by
  rw [Int.floor_eq_zero_iff]
  constructor <;> norm_num

lemma floor_neg_quarter : ⌊(-(1 / 4) : ℝ)⌋ = -1 := by
  rw [Int.floor_eq_iff]
  constructor <;> push_cast <;> norm_num

lemma na_true_3pi2 : normalize_angle true (3 * π / 2) = 3 * π / 2 := by
  unfold normalize_angle
  rw [if_pos rfl]
  have harg : (3 * π / 2) / (2 * π) = 3 / 4 := by
    field_simp
    ring
  rw [harg, floor_three_quarters]
  norm_num

lemma na_false_pi2 : normalize_angle false (π / 2) = -(3 * π / 2) := by
  unfold normalize_angle
  rw [if_neg (by simp)]
  have harg : (-(π / 2)) / (2 * π) = -(1 / 4) := by
    field_simp
    ring
  rw [harg, floor_neg_quarter]
  push_cast
  ring

lemma na_false_neg3pi2 : normalize_angle false (-(3 * π / 2)) = -(3 * π / 2) := by
  unfold normalize_angle
  rw [if_neg (by simp)]
  have harg : (-(-(3 * π / 2))) / (2 * π) = 3 / 4 := by
    field_simp
    ring
  rw [harg, floor_three_quarters]
  push_cast
  ring

/-- Concrete obstacle at planar position (0, 0), radius 1, height 0. -/
def obW0 : Obstacle := ⟨⟨0, 0, 0⟩, 1, 0⟩

/-- Concrete obstacle at planar position (2, 0), radius 1, height 0. -/
def obW1 : Obstacle := ⟨⟨0, 2, 0⟩, 1, 0⟩

/-- Concrete initial Pathfinder state for the build witness: the square
flyzone and two touching unit-circle obstacles. -/
def pfW : Pathfinder :=
  ⟨[sqZone], [obW0, obW1], 0, ⟨0, 0, 0⟩, 0, [], projXY, fun _ _ => [], fun _ => []⟩

/-- The node of obW0 after population. -/
def nW0 : Node := ⟨⟨0, 0, 0⟩, 1, 0, []⟩

/-- The node of obW1 after population. -/
def nW1 : Node := ⟨⟨2, 0, 0⟩, 1, 0, []⟩

/-- The populated state of pfW. -/
def pfPop : Pathfinder :=
  ⟨[sqZone], [obW0, obW1], 0, ⟨-50, 50, 0⟩, 0, [nW0, nW1], projXY,
   fun _ _ => [], fun _ => []⟩

lemma find_origin_sq : find_origin [sqZone] = Except.ok ⟨-50, 50, 0⟩ := by
  have hpi := Real.pi_gt_three
  have hpi2 := Real.pi_lt_d2
  have hfold : sqZone.foldl scanPoint (2 * π, 2 * π, 0) = (-50, -50, 50) := by
    rw [foldl_scanPoint_comp]
    have hlats : sqZone.map Location.lat = [-50, -50, 50, 50] := rfl
    have hlons : sqZone.map Location.lon = [-50, 50, 50, -50] := rfl
    rw [hlats, hlons]
    have e1 : runMin (2 * π) [(-50 : ℝ), -50, 50, 50] = -50 := by
      unfold runMin
      rw [List.foldl_cons, if_pos (by nlinarith : (-50 : ℝ) < 2 * π)]
      rw [List.foldl_cons, if_neg (by norm_num : ¬ (-50 : ℝ) < -50)]
      rw [List.foldl_cons, if_neg (by norm_num : ¬ (50 : ℝ) < -50)]
      rw [List.foldl_cons, if_neg (by norm_num : ¬ (50 : ℝ) < -50)]
      rfl
    have e2 : runMin (2 * π) [(-50 : ℝ), 50, 50, -50] = -50 := by
      unfold runMin
      rw [List.foldl_cons, if_pos (by nlinarith : (-50 : ℝ) < 2 * π)]
      rw [List.foldl_cons, if_neg (by norm_num : ¬ (50 : ℝ) < -50)]
      rw [List.foldl_cons, if_neg (by norm_num : ¬ (50 : ℝ) < -50)]
      rw [List.foldl_cons, if_neg (by norm_num : ¬ (-50 : ℝ) < -50)]
      rfl
    have e3 : runMax 0 [(-50 : ℝ), 50, 50, -50] = 50 := by
      unfold runMax
      rw [List.foldl_cons, if_neg (by norm_num : ¬ (-50 : ℝ) > 0)]
      rw [List.foldl_cons, if_pos (by norm_num : (50 : ℝ) > 0)]
      rw [List.foldl_cons, if_neg (by norm_num : ¬ (50 : ℝ) > 50)]
      rw [List.foldl_cons, if_neg (by norm_num : ¬ (-50 : ℝ) > 50)]
      rfl
    rw [e1, e2, e3]
  rw [find_origin_ok [sqZone] (by simp)
    (by intro z hz; rw [List.mem_singleton.mp hz]; norm_num [sqZone])]
  have h3 := scanZones_fst3 [sqZone] (2 * π, 2 * π, 0, 2 * π)
  have hpts : allBoundaryPoints [sqZone] = sqZone := by
    unfold allBoundaryPoints
    simp
  rw [hpts, hfold] at h3
  have hlat : (scanZones (2 * π, 2 * π, 0, 2 * π) [sqZone]).1 = -50 :=
    congrArg Prod.fst h3
  have hlon := scanZones_lon [sqZone] (2 * π, 2 * π, 0, 2 * π) (by simp)
  rw [hpts, hfold] at hlon
  have hlon2 : (scanZones (2 * π, 2 * π, 0, 2 * π) [sqZone]).2.2.2 = 50 := by
    rw [hlon, if_pos (by nlinarith : (50 : ℝ) - -50 > 2 * π)]
  rw [hlat, hlon2]

lemma populate_pfW : populate_nodes pfW = Except.ok pfPop := by
  unfold populate_nodes
  rw [show pfW.flyzones = [sqZone] from rfl, find_origin_sq]
  refine congrArg Except.ok ?_
  show Pathfinder.mk [sqZone] [obW0, obW1] 0 ⟨-50, 50, 0⟩ 0
      [⟨⟨0, 0, 0⟩, 1 + 0, 0, []⟩, ⟨⟨2, 0, 0⟩, 1 + 0, 0, []⟩] projXY
      (fun _ _ => []) (fun _ => []) = pfPop
  unfold pfPop nW0 nW1
  norm_num

lemma nodeDist_W : nodeDist nW0 nW1 = 2 := by
  have h : nodeDist nW0 nW1 = Real.sqrt 4 := by
    norm_num [nodeDist, Point.distance, nW0, nW1]
  rw [h, show (4 : ℝ) = 2 ^ 2 by norm_num, Real.sqrt_sq (by norm_num : (0:ℝ) ≤ 2)]

lemma fpTheta_W : fpTheta nW0 nW1 = 0 := by
  have h : fpTheta nW0 nW1 = atan2 0 2 := by
    norm_num [fpTheta, nW0, nW1]
  rw [h]
  exact atan2_zero_right 2 (by norm_num)

lemma fpTheta1_W : fpTheta1 nW0 nW1 = 2 * π := by
  unfold fpTheta1 fpThetaPair
  rw [fpTheta_W]
  norm_num

lemma fpTheta2_W : fpTheta2 nW0 nW1 = π := by
  unfold fpTheta2 fpThetaPair
  rw [fpTheta_W]
  norm_num

lemma fpGamma2_W : fpGamma2 nW0 nW1 = π / 2 := by
  unfold fpGamma2
  rw [if_neg (by norm_num [nW0, nW1]), nodeDist_W]
  have h : |nW0.radius - nW1.radius| / 2 = 0 := by
    norm_num [nW0, nW1]
  rw [h, Real.arccos_zero]

lemma not_innerOk_W : ¬ innerOk nW0 nW1 := by
  unfold innerOk
  rw [nodeDist_W]
  rintro ⟨-, -, hd⟩
  rw [show nW0.radius = 1 from rfl, show nW1.radius = 1 from rfl] at hd
  norm_num at hd

lemma outerCandidates_W :
    outerCandidates nW0 nW1 = [(3 * π / 2, 3 * π / 2), (-(3 * π / 2), -(3 * π / 2))] := by
  unfold outerCandidates
  rw [fpTheta1_W, fpTheta2_W, fpGamma2_W]
  rw [show 2 * π - π / 2 = 3 * π / 2 by ring]
  rw [show π + π - π / 2 = 3 * π / 2 by ring]
  rw [show 2 * π - 2 * π + π / 2 = π / 2 by ring]
  rw [show π - 3 * π + π / 2 = -(3 * π / 2) by ring]
  rw [na_true_3pi2, na_false_pi2, na_false_neg3pi2]

lemma findPathCandidates_W :
    findPathCandidates nW0 nW1 =
      [(3 * π / 2, 3 * π / 2), (-(3 * π / 2), -(3 * π / 2))] := by
  unfold findPathCandidates
  rw [if_neg not_innerOk_W, List.append_nil, outerCandidates_W]

lemma sentinelThetaS_W : sentinelThetaS nW0 nW1 = 0 := by
  unfold sentinelThetaS
  rw [nodeDist_W]
  have h : (nW0.radius ^ 2 + (2:ℝ) ^ 2 - nW1.radius ^ 2) / (2 * nW0.radius * 2) = 1 := by
    norm_num [nW0, nW1]
  rw [h, Real.arccos_one]

lemma sentinelPhiS_W : sentinelPhiS nW0 nW1 = 0 := by
  unfold sentinelPhiS
  rw [nodeDist_W]
  have h : (nW1.radius ^ 2 + (2:ℝ) ^ 2 - nW0.radius ^ 2) / (2 * nW1.radius * 2) = 1 := by
    norm_num [nW0, nW1]
  rw [h, Real.arccos_one]

lemma findPathSentinels_W :
    findPathSentinels nW0 nW1 =
      some [(0, π), (0, π), (-(2 * π), -π), (2 * π, -π)] := by
  unfold findPathSentinels
  rw [if_neg not_innerOk_W, sentinelThetaS_W, sentinelPhiS_W]
  norm_num

lemma to_point_W0_a : nW0.to_point (3 * π / 2) = ⟨0, -1, 0⟩ := by
  unfold Node.to_point nW0
  rw [cos_three_pi_div_two, sin_three_pi_div_two]
  norm_num

lemma to_point_W1_a : nW1.to_point (3 * π / 2) = ⟨2, -1, 0⟩ := by
  unfold Node.to_point nW1
  rw [cos_three_pi_div_two, sin_three_pi_div_two]
  norm_num

lemma to_point_W0_b : nW0.to_point (-(3 * π / 2)) = ⟨0, 1, 0⟩ := by
  unfold Node.to_point nW0
  rw [Real.cos_neg, Real.sin_neg, cos_three_pi_div_two, sin_three_pi_div_two]
  norm_num

lemma to_point_W1_b : nW1.to_point (-(3 * π / 2)) = ⟨2, 1, 0⟩ := by
  unfold Node.to_point nW1
  rw [Real.cos_neg, Real.sin_neg, cos_three_pi_div_two, sin_three_pi_div_two]
  norm_num

lemma pfPop_not_blocked_a : ¬ boundaryBlocked pfPop ⟨0, -1, 0⟩ ⟨2, -1, 0⟩ := by
  rintro ⟨z, hz, hblk⟩
  have hzz : z = sqZone := List.mem_singleton.mp hz
  subst hzz
  rw [show pfPop.proj = projXY from rfl] at hblk
  rw [sq_blocked_iff] at hblk
  rcases hblk with h | h | h | h
  · exact absurd h (by norm_num [intersect, orient])
  · exact absurd h (by norm_num [intersect, orient])
  · exact absurd h (by norm_num [intersect, orient])
  · exact absurd h (by norm_num [intersect, orient])

lemma pfPop_not_blocked_b : ¬ boundaryBlocked pfPop ⟨0, 1, 0⟩ ⟨2, 1, 0⟩ := by
  rintro ⟨z, hz, hblk⟩
  have hzz : z = sqZone := List.mem_singleton.mp hz
  subst hzz
  rw [show pfPop.proj = projXY from rfl] at hblk
  rw [sq_blocked_iff] at hblk
  rcases hblk with h | h | h | h
  · exact absurd h (by norm_num [intersect, orient])
  · exact absurd h (by norm_num [intersect, orient])
  · exact absurd h (by norm_num [intersect, orient])
  · exact absurd h (by norm_num [intersect, orient])

lemma obstacleMaxHeight_pfPop (a b : Point) : obstacleMaxHeight pfPop a b = 0 := by
  unfold obstacleMaxHeight
  show List.foldl _ (0 : ℝ) [obW0, obW1] = 0
  rw [List.foldl_cons,
    if_neg (fun hc => lt_irrefl (0:ℝ) (by
      have := hc.2
      rw [show obW0.height = 0 from rfl] at this
      exact this))]
  rw [List.foldl_cons,
    if_neg (fun hc => lt_irrefl (0:ℝ) (by
      have := hc.2
      rw [show obW1.height = 0 from rfl] at this
      exact this))]
  rfl

lemma valid_path_pfPop_a :
    valid_path pfPop ⟨0, -1, 0⟩ ⟨2, -1, 0⟩ = PathValidity.Flyover 0 := by
  unfold valid_path
  rw [if_neg pfPop_not_blocked_a, obstacleMaxHeight_pfPop]

lemma valid_path_pfPop_b :
    valid_path pfPop ⟨0, 1, 0⟩ ⟨2, 1, 0⟩ = PathValidity.Flyover 0 := by
  unfold valid_path
  rw [if_neg pfPop_not_blocked_b, obstacleMaxHeight_pfPop]

lemma dist_W_a : Point.distance ⟨0, -1, 0⟩ ⟨2, -1, 0⟩ = 2 := by
  have h : Point.distance ⟨0, -1, 0⟩ ⟨2, -1, 0⟩ = Real.sqrt 4 := by
    norm_num [Point.distance]
  rw [h, show (4 : ℝ) = 2 ^ 2 by norm_num, Real.sqrt_sq (by norm_num : (0:ℝ) ≤ 2)]

lemma dist_W_b : Point.distance ⟨0, 1, 0⟩ ⟨2, 1, 0⟩ = 2 := by
  have h : Point.distance ⟨0, 1, 0⟩ ⟨2, 1, 0⟩ = Real.sqrt 4 := by
    norm_num [Point.distance]
  rw [h, show (4 : ℝ) = 2 ^ 2 by norm_num, Real.sqrt_sq (by norm_num : (0:ℝ) ≤ 2)]

lemma find_path_pfPop : find_path pfPop nW0 nW1 =
    ([(3 * π / 2, 3 * π / 2, 2, 0), (-(3 * π / 2), -(3 * π / 2), 2, 0)],
     some [(0, π), (0, π), (-(2 * π), -π), (2 * π, -π)]) := by
  unfold find_path
  rw [findPathCandidates_W, findPathSentinels_W]
  refine congrArg (fun l => (l, some [((0:ℝ), π), (0, π), (-(2 * π), -π), (2 * π, -π)])) ?_
  rw [List.filterMap_cons, List.filterMap_cons, List.filterMap_nil]
  dsimp only
  rw [to_point_W0_a, to_point_W1_a, to_point_W0_b, to_point_W1_b,
    valid_path_pfPop_a, valid_path_pfPop_b, dist_W_a, dist_W_b]

/-- The final state of the witness build: the pair loop applied to the
populated two-node state. -/
def c3Final : Pathfinder := (pairsList 2).foldl processPair pfPop

lemma build_pfW : build_graph pfW = Except.ok c3Final := by
  unfold build_graph
  rw [populate_pfW]
  rfl

lemma staticLike_pfPop_c3Final : staticLike pfPop c3Final :=
  staticLike_foldl processPair staticLike_processPair (pairsList 2) pfPop

lemma c3Final_len : c3Final.nodes.length = 2 := by
  have h := staticLike_pfPop_c3Final.2.2.2.2.1
  rw [h]
  rfl

lemma find_path_c3Final :
    find_path c3Final (nthNode c3Final 0) (nthNode c3Final 1) =
      ([(3 * π / 2, 3 * π / 2, 2, 0), (-(3 * π / 2), -(3 * π / 2), 2, 0)],
       some [(0, π), (0, π), (-(2 * π), -π), (2 * π, -π)]) := by
  rw [find_path_transport pfPop c3Final staticLike_pfPop_c3Final 0 1]
  rw [show nthNode pfPop 0 = nW0 from rfl, show nthNode pfPop 1 = nW1 from rfl]
  exact find_path_pfPop

lemma mem_find_path_c3Final :
    ((3 * π / 2, 3 * π / 2, (2:ℝ), (0:ℝ)) : ℝ × ℝ × ℝ × ℝ) ∈
      (find_path c3Final (nthNode c3Final 0) (nthNode c3Final 1)).1 := by
  rw [find_path_c3Final]
  exact List.mem_cons_self _ _

/-- Witness for C3: the concrete two-node build succeeds, the tuple
(3 pi / 2, 3 pi / 2, 2, 0) is an accepted tangent for the pair (0, 1),
and the theorem produces both directed edges in the final state. -/
theorem claim_C3_witness :
    (build_graph pfW = Except.ok c3Final ∧ 0 < 1 ∧ 1 < c3Final.nodes.length ∧
      ((3 * π / 2, 3 * π / 2, (2:ℝ), (0:ℝ)) : ℝ × ℝ × ℝ × ℝ) ∈
        (find_path c3Final (nthNode c3Final 0) (nthNode c3Final 1)).1) ∧
    (hasEdge c3Final 0 1 (3 * π / 2) (3 * π / 2) 2 0 ∧
      hasEdge c3Final 1 0 (reverse_polarity (3 * π / 2)) (reverse_polarity (3 * π / 2))
        2 0) :=
  ⟨⟨build_pfW, by norm_num, by rw [c3Final_len]; norm_num, mem_find_path_c3Final⟩,
   claim_C3 pfW c3Final build_pfW 0 1 (by norm_num)
     (by rw [c3Final_len]; norm_num) _ mem_find_path_c3Final⟩

/-- Witness for C7: the concrete two-node build starts from counter 0 and
succeeds, and the theorem yields distinct contiguous indices. -/
theorem claim_C7_witness :
    (pfW.num_vertices = 0 ∧ build_graph pfW = Except.ok c3Final) ∧
    ((idxList c3Final).Nodup ∧
      ∀ k : ℤ, (idxList c3Final).count k =
        if 0 ≤ k ∧ k < c3Final.num_vertices then 1 else 0) :=
  ⟨⟨rfl, build_pfW⟩, claim_C7 pfW c3Final rfl build_pfW⟩

/-- Witness for C10: the accepted tuple of the concrete pair has a
nonnegative threshold carried by a Flyover result. -/
theorem claim_C10_witness :
    (((3 * π / 2, 3 * π / 2, (2:ℝ), (0:ℝ)) : ℝ × ℝ × ℝ × ℝ) ∈
        (find_path pfPop nW0 nW1).1) ∧
    (0 ≤ ((3 * π / 2, 3 * π / 2, (2:ℝ), (0:ℝ)) : ℝ × ℝ × ℝ × ℝ).2.2.2 ∧
      valid_path pfPop (nW0.to_point (3 * π / 2)) (nW1.to_point (3 * π / 2)) =
        PathValidity.Flyover
          ((3 * π / 2, 3 * π / 2, (2:ℝ), (0:ℝ)) : ℝ × ℝ × ℝ × ℝ).2.2.2) := by
  have hmem : ((3 * π / 2, 3 * π / 2, (2:ℝ), (0:ℝ)) : ℝ × ℝ × ℝ × ℝ) ∈
      (find_path pfPop nW0 nW1).1 := by
    rw [find_path_pfPop]
    exact List.mem_cons_self _ _
  exact ⟨hmem, (claim_C10 pfPop).2.2 nW0 nW1 _ hmem⟩
